import Mathlib

/-!
Verification of the nurse-schedule CP-SAT formulation.

This file gives a shallow embedding of the two `solve_schedule` variants of
the repository (`src/api/optimize_schedule.py` and
`src/solver/schedule_optimizer.py`).  The model-building part of the Python
code is translated into executable Lean definitions: the decision cube is a
boolean-valued function, the emitted linear constraints are an explicit
syntactic list, the reified flower-pattern indicators and the fairness
min/max integer variables are modelled through an explicit assignment
record, and the external CP-SAT backend is an explicit functional parameter
(it receives the built model and either returns an assignment - the
OPTIMAL/FEASIBLE case - or nothing - the INFEASIBLE/UNKNOWN case).
Python exceptions are modelled with `Except`.
-/

set_option maxRecDepth 10000

namespace NurseSched

/-- A nurse as consumed by the solver: `id` and the optional `level` field
(the code reads it with `n.get('level')`).  The `name` field is never read
by the solver and is omitted. -/
structure Nurse where
  id : String
  level : Option String
deriving DecidableEq

/-- A shift type as consumed by the solver: `id` and `code`
(`name` is never read). -/
structure ShiftType where
  id : String
  code : String
deriving DecidableEq

/-- The `wardConfig` dictionary: every key is optional, the code reads each
with `ward_config.get(key, default)`. -/
structure WardConfig where
  minNursesDay : Option Int := none
  minNursesEvening : Option Int := none
  minNursesNight : Option Int := none
  maxNursesDay : Option Int := none
  maxNursesEvening : Option Int := none
  maxNursesNight : Option Int := none
  minWorkingDays : Option Int := none
  maxWorkingDays : Option Int := none
deriving DecidableEq

/-- The `constraints` dictionary.  The solver reads `minShiftInterval11h`,
`avoidFlowerPattern` and `minSeniorCount`; the `seniorNurseCoverage` key
(sent by the external test harness) is carried but never read by the
solver code. -/
structure ConstraintsConfig where
  minShiftInterval11h : Option Bool := none
  avoidFlowerPattern : Option Bool := none
  minSeniorCount : Option Int := none
  seniorNurseCoverage : Option Bool := none
deriving DecidableEq

/-- One `preAssigned` entry.  Each field is optional because the Python
code accesses `p['nurseId']`, `p['date']`, `p['shiftCode']` on a plain
dictionary: a missing key raises `KeyError`. -/
structure PreAssignment where
  nurseId : Option String := none
  date : Option String := none
  shiftCode : Option String := none
deriving DecidableEq

/-- The input dictionary of `solve_schedule`.  The four top-level fields
read without a default are optional; `wardConfig`, `constraints`,
`preAssigned` and `nurseForbiddenShifts` are read with `.get(key, default)`
so their absence is identified with the default value. -/
structure InputData where
  nurses : Option (List Nurse) := none
  shiftTypes : Option (List ShiftType) := none
  year : Option Int := none
  month : Option Int := none
  wardConfig : WardConfig := {}
  constraints : ConstraintsConfig := {}
  preAssigned : List PreAssignment := []
  nurseForbiddenShifts : List (String × List String) := []
deriving DecidableEq

/-- The Python exceptions that the solver body can raise. -/
inductive PyErr where
  | typeError (msg : String)
  | keyError (key : String)
  | illegalMonth (m : Int)
  | valueError (msg : String)
deriving DecidableEq

deriving instance DecidableEq for Except

/-- `str(e)` for the modelled exceptions. -/
def PyErr.message : PyErr → String
  | .typeError m => m
  | .keyError k => "\x27" ++ k ++ "\x27"
  | .illegalMonth m => "bad month number " ++ toString m ++ "; must be 1-12"
  | .valueError m => m

/-- `calendar.isleap`. -/
def isleap (y : Int) : Bool :=
  y % 4 == 0 && (y % 100 != 0 || y % 400 == 0)

/-- Day count of month `m` (1-based) of year `y`, Gregorian rule. -/
def monthDays (y : Int) (m : Nat) : Nat :=
  match m with
  | 1 => 31
  | 2 => if isleap y then 29 else 28
  | 3 => 31
  | 4 => 30
  | 5 => 31
  | 6 => 30
  | 7 => 31
  | 8 => 31
  | 9 => 30
  | 10 => 31
  | 11 => 30
  | 12 => 31
  | _ => 0

/-- `calendar.monthrange(year, month)[1]`: raises `IllegalMonthError` for a
month outside 1..12 and `ValueError` (via `datetime.date`) for a year
outside 1..9999, otherwise returns the number of days in the month. -/
def monthrangeDays (y m : Int) : Except PyErr Nat :=
  if m < 1 || 12 < m then
    Except.error (.illegalMonth m)
  else if y < 1 || 9999 < y then
    Except.error (.valueError ("year " ++ toString y ++ " is out of range"))
  else
    Except.ok (monthDays y m.toNat)

/-- The value of a Python dict comprehension `{f(x): i for i, x in
enumerate(l)}` looked up at key `k`: the index of the last element whose
key equals `k` (later insertions overwrite earlier ones), or `none`. -/
def dictLastIdx {α : Type} (f : α → String) (l : List α) (k : String) : Option Nat :=
  l.enum.foldl (fun acc p => if f p.2 = k then some p.1 else acc) none

/-- `senior_levels` from the source. -/
def seniorLevels : List String := ["N2", "N3", "N4"]

/-- Whether a nurse counts as senior: `n.get('level') in ['N2','N3','N4']`. -/
def isSenior (n : Nurse) : Bool :=
  match n.level with
  | some l => seniorLevels.contains l
  | none => false

/-- The normalized data every constraint block reads: the parsed fields of
the input with the `.get` defaults resolved exactly as in the source. -/
structure Env where
  nurses : List Nurse
  year : Int
  month : Int
  numDays : Nat
  workingShifts : List ShiftType
  idxD : Option Nat
  idxE : Option Nat
  idxN : Option Nat
  minND : Int
  minNE : Int
  minNN : Int
  maxND : Int
  maxNE : Int
  maxNN : Int
  minWork : Int
  maxWork : Int
  minSenior : Int
  minInterval : Bool
  avoidFlower : Bool
  preAssigned : List PreAssignment
  forbidden : List (String × List String)
deriving DecidableEq

/-- `num_nurses`. -/
def numNurses (env : Env) : Nat := env.nurses.length

/-- `num_working_shifts`. -/
def numShifts (env : Env) : Nat := env.workingShifts.length

/-- Builds the normalized environment from the already-extracted raw
fields: the working-shift subset (codes D/E/N only, order preserved), the
shift indices `idx_d`/`idx_e`/`idx_n` (`None` standing for the sentinel
`-1`), and all `.get` defaults of `wardConfig`/`constraints`. -/
def mkEnv (nurses : List Nurse) (shiftTypes : List ShiftType) (year month : Int)
    (numDays : Nat) (wc : WardConfig) (cc : ConstraintsConfig)
    (pre : List PreAssignment) (forb : List (String × List String)) : Env :=
  let ws := shiftTypes.filter fun s => (["D", "E", "N"] : List String).contains s.code
  { nurses := nurses
    year := year
    month := month
    numDays := numDays
    workingShifts := ws
    idxD := dictLastIdx ShiftType.code ws "D"
    idxE := dictLastIdx ShiftType.code ws "E"
    idxN := dictLastIdx ShiftType.code ws "N"
    minND := wc.minNursesDay.getD 0
    minNE := wc.minNursesEvening.getD 0
    minNN := wc.minNursesNight.getD 0
    maxND := wc.maxNursesDay.getD (nurses.length : Int)
    maxNE := wc.maxNursesEvening.getD (nurses.length : Int)
    maxNN := wc.maxNursesNight.getD (nurses.length : Int)
    minWork := wc.minWorkingDays.getD 15
    maxWork := wc.maxWorkingDays.getD 23
    minSenior := cc.minSeniorCount.getD 1
    minInterval := cc.minShiftInterval11h.getD true
    avoidFlower := cc.avoidFlowerPattern.getD true
    preAssigned := pre
    forbidden := forb }

/-- Outcome of the parsing/validation prefix of the api variant: either the
early `"Missing required data"` return, or a normalized environment. -/
inductive Parsed where
  | missing
  | done (env : Env)
deriving DecidableEq

/-- The exact TypeError message raised by `None + 1`. -/
def monthTypeErr : PyErr :=
  .typeError "unsupported operand type(s) for +: \x27NoneType\x27 and \x27int\x27"

/-- Parsing and validation prefix of `solve_schedule` in
`src/api/optimize_schedule.py` (lines 17-44): reads the fields with
`.get`, computes `month = data.get('month') + 1` (raising `TypeError` when
the key is absent), then runs the `Basic Validation` check, then
`monthrange`. -/
def parseInput (data : InputData) : Except PyErr Parsed :=
  match data.month with
  | none => Except.error monthTypeErr
  | some m0 =>
    match data.year with
    | none => Except.ok Parsed.missing
    | some y =>
      if (data.nurses.getD []).isEmpty || (data.shiftTypes.getD []).isEmpty then
        Except.ok Parsed.missing
      else
        (monthrangeDays y (m0 + 1)).map fun nd =>
          Parsed.done (mkEnv (data.nurses.getD []) (data.shiftTypes.getD []) y
            (m0 + 1) nd data.wardConfig data.constraints data.preAssigned
            data.nurseForbiddenShifts)

/-- A linear constraint over the decision cube: a sum of distinct boolean
variables (each named by its `(nurse, day, shift)` index triple) compared
with an integer bound.  This is the shape of every `model.Add(...)` call of
the source that involves only cube variables. -/
inductive LinCon where
  | le (vs : List (Nat × Nat × Nat)) (b : Int)
  | ge (vs : List (Nat × Nat × Nat)) (b : Int)
  | eq (vs : List (Nat × Nat × Nat)) (b : Int)
deriving DecidableEq

/-- A value for the decision cube `shifts[(n, d, s)]`. -/
abbrev Cube := Nat → Nat → Nat → Bool

/-- The value of a sum of cube variables under an assignment. -/
def lsum (c : Cube) (vs : List (Nat × Nat × Nat)) : Int :=
  (vs.map fun v => if c v.1 v.2.1 v.2.2 then (1 : Int) else 0).sum

/-- Whether an assignment satisfies one linear constraint. -/
def LinCon.holds (c : Cube) : LinCon → Bool
  | .le vs b => decide (lsum c vs ≤ b)
  | .ge vs b => decide (b ≤ lsum c vs)
  | .eq vs b => lsum c vs == b

/-- Hard constraint block (0), `Forbidden Shifts`: for each entry of
`nurseForbiddenShifts` whose nurse id resolves in the roster and for each
forbidden code that resolves in the working-shift map, the variable is
forced to 0 on every day. -/
def forbiddenCons (env : Env) : List LinCon :=
  env.forbidden.flatMap fun pr =>
    match dictLastIdx Nurse.id env.nurses pr.1 with
    | none => []
    | some nIdx =>
      pr.2.flatMap fun code =>
        match dictLastIdx ShiftType.code env.workingShifts code with
        | none => []
        | some sIdx =>
          (List.range env.numDays).map fun d => LinCon.eq [(nIdx, d, sIdx)] 0

/-- The list of that nurse's shift variables on one day,
`[shifts[(n, d, s)] for s in range(num_working_shifts)]`. -/
def dayVars (env : Env) (n d : Nat) : List (Nat × Nat × Nat) :=
  (List.range (numShifts env)).map fun s => (n, d, s)

/-- Hard constraint block (1), `Max 1 shift per day`. -/
def amoCons (env : Env) : List LinCon :=
  (List.range (numNurses env)).flatMap fun n =>
    (List.range env.numDays).map fun d => LinCon.le (dayVars env n d) 1

/-- `int(p['date'].split('-')[...])`, character-level model of Python
`str.split` on a single-character separator. -/
def pySplit (sep : Char) : List Char → List (List Char)
  | [] => [[]]
  | c :: rest =>
    let r := pySplit sep rest
    if c = sep then [] :: r
    else
      match r with
      | [] => [[c]]
      | g :: gs => (c :: g) :: gs

/-- Python `int(str)` on the strings this code can meet: an optional minus
sign followed by a non-empty digit string; anything else raises
`ValueError` (modelled as `none`). -/
def digitsVal (cs : List Char) : Option Nat :=
  if cs.isEmpty then none
  else if cs.all Char.isDigit then
    some (cs.foldl (fun a c => a * 10 + (c.toNat - 48)) 0)
  else none

/-- See `digitsVal`. -/
def pyInt (cs : List Char) : Option Int :=
  match cs with
  | '-' :: rest => (digitsVal rest).map fun v => -(v : Int)
  | _ => (digitsVal cs).map fun v => (v : Int)

/-- `int(p['date'].split('-')[2]) - 1`: the 0-based day index of a
pre-assignment date string, or `none` when the index access or the int
conversion raises. -/
def dateDay (s : String) : Option Int :=
  match (pySplit '-' s.data)[2]? with
  | none => none
  | some part => (pyInt part).map fun v => v - 1

/-- The constraints contributed by one pre-assignment entry for a resolved
nurse index: the body of the inner `try` of block (2).  Every exception
path inside the `try` (missing `date`/`shiftCode` key, malformed date) and
the out-of-range `continue` contribute no constraint. -/
def preEntryCons (env : Env) (nIdx : Nat) (p : PreAssignment) : List LinCon :=
  match p.date with
  | none => []
  | some ds =>
    match dateDay ds with
    | none => []
    | some pDate =>
      if pDate < 0 || (env.numDays : Int) ≤ pDate then []
      else
        match p.shiftCode with
        | none => []
        | some sc =>
          match dictLastIdx ShiftType.code env.workingShifts sc with
          | some sIdx => [LinCon.eq [(nIdx, pDate.toNat, sIdx)] 1]
          | none => [LinCon.eq (dayVars env nIdx pDate.toNat) 0]

/-- Hard constraint block (2), `Pre-assigned`: iterates the entries in
order; `p['nurseId']` is read before the `try`, so a missing `nurseId` key
raises out of the loop; an unknown nurse id skips the entry. -/
def preConsList (env : Env) : List PreAssignment → Except PyErr (List LinCon)
  | [] => Except.ok []
  | p :: rest =>
    match p.nurseId with
    | none => Except.error (.keyError "nurseId")
    | some nid =>
      let cs :=
        match dictLastIdx Nurse.id env.nurses nid with
        | none => []
        | some nIdx => preEntryCons env nIdx p
      (preConsList env rest).map fun others => cs ++ others

/-- One forbidden-succession constraint of block (3), emitted only when
both shift indices exist: `shifts[(n,d,i)] + shifts[(n,d+1,j)] <= 1`. -/
def pairCon (o1 o2 : Option Nat) (n d : Nat) : List LinCon :=
  match o1, o2 with
  | some i, some j => [LinCon.le [(n, d, i), (n, d + 1, j)] 1]
  | _, _ => []

/-- Hard constraint block (3), `Min Interval 11h`: when the
`minShiftInterval11h` flag resolves to true, for every nurse and every
consecutive day pair, forbid E then D, N then E, and N then D, each pair
emitted only when both codes exist in the catalog. -/
def restCons (env : Env) : List LinCon :=
  if env.minInterval then
    (List.range (numNurses env)).flatMap fun n =>
      (List.range (env.numDays - 1)).flatMap fun d =>
        pairCon env.idxE env.idxD n d ++
        pairCon env.idxN env.idxE n d ++
        pairCon env.idxN env.idxD n d
  else []

/-- The column of one shift on one day,
`[shifts[(n, d, s)] for n in all_nurses]`. -/
def colVars (env : Env) (d s : Nat) : List (Nat × Nat × Nat) :=
  (List.range (numNurses env)).map fun n => (n, d, s)

/-- Hard constraint block (4), `Daily Demand`: for every day and each of
D/E/N present in the catalog, the column count is bounded below and above
by the ward configuration. -/
def demandCons (env : Env) : List LinCon :=
  (List.range env.numDays).flatMap fun d =>
    (match env.idxD with
     | some i => [LinCon.ge (colVars env d i) env.minND, LinCon.le (colVars env d i) env.maxND]
     | none => []) ++
    (match env.idxE with
     | some i => [LinCon.ge (colVars env d i) env.minNE, LinCon.le (colVars env d i) env.maxNE]
     | none => []) ++
    (match env.idxN with
     | some i => [LinCon.ge (colVars env d i) env.minNN, LinCon.le (colVars env d i) env.maxNN]
     | none => [])

/-- `senior_indices`: indices of the roster's senior-level nurses. -/
def seniorIndices (env : Env) : List Nat :=
  env.nurses.enum.filterMap fun p => if isSenior p.2 then some p.1 else none

/-- Hard constraint block (5), `Senior Cover`: only when `senior_indices`
is non-empty, every (day, shift) slot must hold at least `min_senior`
senior nurses. -/
def seniorCons (env : Env) : List LinCon :=
  if (seniorIndices env).isEmpty then []
  else
    (List.range env.numDays).flatMap fun d =>
      (List.range (numShifts env)).map fun s =>
        LinCon.ge ((seniorIndices env).map fun n => (n, d, s)) env.minSenior

/-- All shift variables of one nurse over the month, in the order
`for d in all_days for s in range(num_working_shifts)`. -/
def nurseVars (env : Env) (n : Nat) : List (Nat × Nat × Nat) :=
  (List.range env.numDays).flatMap fun d =>
    (List.range (numShifts env)).map fun s => (n, d, s)

/-- Hard constraint block (6), `Workload`: per-nurse monthly total bounded
by `minWorkingDays`/`maxWorkingDays`. -/
def workloadCons (env : Env) : List LinCon :=
  (List.range (numNurses env)).flatMap fun n =>
    [LinCon.ge (nurseVars env n) env.minWork, LinCon.le (nurseVars env n) env.maxWork]

/-- The 7-day sliding window of one nurse starting at day `d`, in the
order `for k in range(window_size) for s in range(num_working_shifts)`. -/
def windowVars (env : Env) (n d : Nat) : List (Nat × Nat × Nat) :=
  (List.range 7).flatMap fun k =>
    (List.range (numShifts env)).map fun s => (n, d + k, s)

/-- Constraint block (D), `Consecutive Days <= 6`: for every nurse and
every start day in `range(num_days - 6)`, the 7-day window total is at
most 6. -/
def consecCons (env : Env) : List LinCon :=
  (List.range (numNurses env)).flatMap fun n =>
    (List.range (env.numDays - 6)).map fun d =>
      LinCon.le (windowVars env n d) 6

/-- One term appended to `obj_terms`: a 2-day flower indicator times -20,
a 3-day flower indicator times -40, the fairness spread times -50, or the
grand total of shifts times -1. -/
inductive ObjTerm where
  | dn (n d : Nat)
  | dnd (n d : Nat)
  | spread
  | allShifts
deriving DecidableEq

/-- `avoidFlowerPattern` resolved, and both `idx_d != -1` and
`idx_n != -1`: the guard of the flower-pattern block. -/
def flowerActive (env : Env) : Bool :=
  env.avoidFlower && env.idxD.isSome && env.idxN.isSome

/-- The `obj_terms` list built by `src/api/optimize_schedule.py` (blocks
(A), (B), (C)): per nurse first all 2-day indicators then all 3-day
indicators, then the fairness spread term, then the total-shifts term. -/
def apiObjTerms (env : Env) : List ObjTerm :=
  (if flowerActive env then
    (List.range (numNurses env)).flatMap fun n =>
      ((List.range (env.numDays - 1)).map fun d => ObjTerm.dn n d) ++
      (if 3 ≤ env.numDays then
        (List.range (env.numDays - 2)).map fun d => ObjTerm.dnd n d
       else [])
   else []) ++ [ObjTerm.spread, ObjTerm.allShifts]

/-- A full assignment returned by the backend: the decision cube plus the
auxiliary variables the model creates (`max_shifts`, `min_shifts`, and the
reified flower indicators `is_dn_{n}_{d}` / `is_dnd_{n}_{d}`). -/
structure Asg where
  cube : Cube
  maxShifts : Nat
  minShifts : Nat
  dn : Nat → Nat → Bool
  dnd : Nat → Nat → Bool

/-- Value of one objective term under an assignment. -/
def ObjTerm.eval (env : Env) (a : Asg) : ObjTerm → Int
  | .dn n d => if a.dn n d then -20 else 0
  | .dnd n d => if a.dnd n d then -40 else 0
  | .spread => (-50) * ((a.maxShifts : Int) - (a.minShifts : Int))
  | .allShifts => (-1) * ((List.range (numNurses env)).map fun n => lsum a.cube (nurseVars env n)).sum

/-- The number of working days of one nurse under a cube assignment. -/
def loadOf (env : Env) (c : Cube) (n : Nat) : Nat :=
  (nurseVars env n).countP fun v => c v.1 v.2.1 v.2.2

/-- `work_days_per_nurse` as values. -/
def loadsList (env : Env) (c : Cube) : List Nat :=
  (List.range (numNurses env)).map fun n => loadOf env c n

/-- Value of `AddMaxEquality`'s right-hand side. -/
def natMax (l : List Nat) : Nat := l.foldl Nat.max 0

/-- Value of `AddMinEquality`'s right-hand side on a non-empty list. -/
def natMin (l : List Nat) : Nat :=
  match l with
  | [] => 0
  | x :: xs => xs.foldl Nat.min x

/-- Satisfaction of the fairness block (B): `max_shifts` and `min_shifts`
lie in their declared domain `[0, num_days]`, equal the max/min of the
per-nurse loads, and their difference is capped at 5. -/
def fairOK (env : Env) (a : Asg) : Bool :=
  let ls := loadsList env a.cube
  a.maxShifts ≤ env.numDays && a.minShifts ≤ env.numDays &&
  a.maxShifts == natMax ls && a.minShifts == natMin ls &&
  decide (((a.maxShifts : Int) - (a.minShifts : Int)) ≤ 5)

/-- The two cube variables of the 2-day flower pattern of nurse `n` at
day `d`: D on `d`, N on `d+1`. -/
def dnPatVars (iD iN n d : Nat) : List (Nat × Nat × Nat) :=
  [(n, d, iD), (n, d + 1, iN)]

/-- The three cube variables of the 3-day flower pattern: D, N, D. -/
def dndPatVars (iD iN n d : Nat) : List (Nat × Nat × Nat) :=
  [(n, d, iD), (n, d + 1, iN), (n, d + 2, iD)]

/-- Satisfaction of the reified flower constraints of block (A): for every
created indicator, `OnlyEnforceIf(b)` forces the pattern sum to its full
count and `OnlyEnforceIf(b.Not())` forces it below. -/
def flowerOK (env : Env) (a : Asg) : Bool :=
  if env.avoidFlower then
    match env.idxD, env.idxN with
    | some iD, some iN =>
      (List.range (numNurses env)).all fun n =>
        ((List.range (env.numDays - 1)).all fun d =>
          if a.dn n d then lsum a.cube (dnPatVars iD iN n d) == 2
          else decide (lsum a.cube (dnPatVars iD iN n d) < 2)) &&
        (if 3 ≤ env.numDays then
          (List.range (env.numDays - 2)).all fun d =>
            if a.dnd n d then lsum a.cube (dndPatVars iD iN n d) == 3
            else decide (lsum a.cube (dndPatVars iD iN n d) < 3)
         else true)
    | _, _ => true
  else true

/-- The model handed to the backend: the environment it was built from,
its hard linear constraints in emission order, and its objective terms. -/
structure Model where
  env : Env
  cons : List LinCon
  objTerms : List ObjTerm
deriving DecidableEq

/-- Whether an assignment satisfies every constraint of the model: all
linear cube constraints, the fairness block, and the reified flower
indicators. -/
def satisfiesB (m : Model) (a : Asg) : Bool :=
  m.cons.all (LinCon.holds a.cube) && fairOK m.env a && flowerOK m.env a

/-- The objective value `sum(obj_terms)` handed to `model.Maximize`. -/
def objValue (env : Env) (terms : List ObjTerm) (a : Asg) : Int :=
  (terms.map (ObjTerm.eval env a)).sum

/-- `buildModel` of the api variant: parsing/validation, then all hard
constraint blocks in source order (the pre-assignment block may raise),
then the objective terms.  `none` is the early `"Missing required data"`
return. -/
def buildModel (data : InputData) : Except PyErr (Option Model) :=
  match parseInput data with
  | .error e => .error e
  | .ok .missing => .ok none
  | .ok (.done env) =>
    match preConsList env env.preAssigned with
    | .error e => .error e
    | .ok pre =>
      .ok (some
        { env := env
          cons := forbiddenCons env ++ amoCons env ++ pre ++ restCons env ++
            demandCons env ++ seniorCons env ++ workloadCons env ++ consecCons env
          objTerms := apiObjTerms env })

/-- `f"{month:02d}"` / `f"{d+1:02d}"` for the values this code prints. -/
def pad2 (n : Int) : String :=
  if 0 ≤ n && n < 10 then "0" ++ toString n else toString n

/-- `f"{year}-{month:02d}-{d+1:02d}"`. -/
def dateFmt (env : Env) (d : Nat) : String :=
  toString env.year ++ "-" ++ pad2 env.month ++ "-" ++ pad2 ((d : Int) + 1)

/-- One output record. -/
structure ScheduleRecord where
  date : String
  nurseId : String
  shiftTypeId : String
  shiftCode : String
deriving DecidableEq

/-- The record the decoder emits for one (nurse, day) pair: the inner
`for s ... if solver.BooleanValue ... break` loop takes the first
working-shift variable assigned true, and no record is produced when none
is true. -/
def emission (env : Env) (c : Cube) (n d : Nat) : Option ScheduleRecord :=
  match (List.range (numShifts env)).find? fun s => c n d s with
  | none => none
  | some s =>
    match env.workingShifts[s]?, env.nurses[n]? with
    | some st, some nr =>
      some { date := dateFmt env d
             nurseId := nr.id
             shiftTypeId := st.id
             shiftCode := st.code }
    | _, _ => none

/-- The solution decoder: nurse-major, day-minor. -/
def decode (env : Env) (c : Cube) : List ScheduleRecord :=
  (List.range (numNurses env)).flatMap fun n =>
    (List.range env.numDays).flatMap fun d =>
      (emission env c n d).toList

/-- The result dictionary of the api variant. -/
inductive SolveResult where
  | success (schedules : List ScheduleRecord)
  | failure (error : String)
deriving DecidableEq

/-- The `success` flag of a result. -/
def SolveResult.isSuccess : SolveResult → Bool
  | .success _ => true
  | .failure _ => false

/-- The abstract CP-SAT backend: given the built model it either returns a
full variable assignment (the OPTIMAL/FEASIBLE statuses) or no assignment
(INFEASIBLE/UNKNOWN/timeout). -/
abbrev Backend := Model → Option Asg

/-- The missing-data failure message of the api variant. -/
def missingMsg : String := "Missing required data (nurses, shiftTypes, year, month)"

/-- The infeasibility failure message (with the backend status name). -/
def infeasibleMsg : String := "Infeasible (Status: INFEASIBLE)"

/-- The body of `solve_schedule` (api variant) without the outer
`try/except`: build the model, hand it to the backend, decode on success. -/
def solveBody (backend : Backend) (data : InputData) : Except PyErr SolveResult :=
  match buildModel data with
  | .error e => .error e
  | .ok none => .ok (.failure missingMsg)
  | .ok (some m) =>
    match backend m with
    | some a => .ok (.success (decode m.env a.cube))
    | none => .ok (.failure infeasibleMsg)

/-- `solve_schedule` with the outer `try/except` that is still explicit as
an `Except` value: an exception of the body is mapped to the generic
`{"success": False, "error": str(e)}` result, so the `.error` branch of
this function is provably never taken. -/
def solveCaught (backend : Backend) (data : InputData) : Except PyErr SolveResult :=
  match solveBody backend data with
  | .ok r => .ok r
  | .error e => .ok (.failure e.message)

/-- `solve_schedule` of `src/api/optimize_schedule.py` as a function. -/
def solve_schedule (backend : Backend) (data : InputData) : SolveResult :=
  match solveCaught backend data with
  | .ok r => r
  | .error e => .failure e.message

/-- The `(max_time_in_seconds, num_search_workers)` solver parameters of
the api variant. -/
def apiSolverParams : Nat × Nat := (10, 4)

namespace SV

/-!
Separate translation of the model-building portion of the second variant,
`src/solver/schedule_optimizer.py`, kept apart so that its agreement with
the api variant is a theorem rather than a definition.
-/

/-- Parsing prefix of the solver-script variant (lines 19-28): the four
top-level fields are read with `data[key]`, raising `KeyError` when
absent; there is no `Basic Validation` block. -/
def parse (data : InputData) : Except PyErr Env :=
  match data.nurses with
  | none => Except.error (.keyError "nurses")
  | some nurses =>
    match data.shiftTypes with
    | none => Except.error (.keyError "shiftTypes")
    | some shiftTypes =>
      match data.year with
      | none => Except.error (.keyError "year")
      | some y =>
        match data.month with
        | none => Except.error (.keyError "month")
        | some m0 =>
          (monthrangeDays y (m0 + 1)).map fun nd =>
            mkEnv nurses shiftTypes y (m0 + 1) nd data.wardConfig
              data.constraints data.preAssigned data.nurseForbiddenShifts

/-- Block (0) of the solver-script variant (lines 70-79). -/
def forbiddenCons (env : Env) : List LinCon :=
  env.forbidden.flatMap fun pr =>
    match dictLastIdx Nurse.id env.nurses pr.1 with
    | none => []
    | some nIdx =>
      pr.2.flatMap fun code =>
        match dictLastIdx ShiftType.code env.workingShifts code with
        | none => []
        | some sIdx =>
          (List.range env.numDays).map fun d => LinCon.eq [(nIdx, d, sIdx)] 0

/-- Block (1) of the solver-script variant (lines 83-85). -/
def amoCons (env : Env) : List LinCon :=
  (List.range (numNurses env)).flatMap fun n =>
    (List.range env.numDays).map fun d => LinCon.le (dayVars env n d) 1

/-- Inner `try` body of block (2) of the solver-script variant
(lines 94-111). -/
def preEntryCons (env : Env) (nIdx : Nat) (p : PreAssignment) : List LinCon :=
  match p.date with
  | none => []
  | some ds =>
    match dateDay ds with
    | none => []
    | some pDate =>
      if pDate < 0 || (env.numDays : Int) ≤ pDate then []
      else
        match p.shiftCode with
        | none => []
        | some sc =>
          match dictLastIdx ShiftType.code env.workingShifts sc with
          | some sIdx => [LinCon.eq [(nIdx, pDate.toNat, sIdx)] 1]
          | none => [LinCon.eq (dayVars env nIdx pDate.toNat) 0]

/-- Block (2) of the solver-script variant (lines 90-111). -/
def preConsList (env : Env) : List PreAssignment → Except PyErr (List LinCon)
  | [] => Except.ok []
  | p :: rest =>
    match p.nurseId with
    | none => Except.error (.keyError "nurseId")
    | some nid =>
      let cs :=
        match dictLastIdx Nurse.id env.nurses nid with
        | none => []
        | some nIdx => preEntryCons env nIdx p
      (preConsList env rest).map fun others => cs ++ others

/-- Block (3) of the solver-script variant (lines 117-128). -/
def restCons (env : Env) : List LinCon :=
  if env.minInterval then
    (List.range (numNurses env)).flatMap fun n =>
      (List.range (env.numDays - 1)).flatMap fun d =>
        pairCon env.idxE env.idxD n d ++
        pairCon env.idxN env.idxE n d ++
        pairCon env.idxN env.idxD n d
  else []

/-- Block (4) of the solver-script variant (lines 141-154). -/
def demandCons (env : Env) : List LinCon :=
  (List.range env.numDays).flatMap fun d =>
    (match env.idxD with
     | some i => [LinCon.ge (colVars env d i) env.minND, LinCon.le (colVars env d i) env.maxND]
     | none => []) ++
    (match env.idxE with
     | some i => [LinCon.ge (colVars env d i) env.minNE, LinCon.le (colVars env d i) env.maxNE]
     | none => []) ++
    (match env.idxN with
     | some i => [LinCon.ge (colVars env d i) env.minNN, LinCon.le (colVars env d i) env.maxNN]
     | none => [])

/-- Block (5) of the solver-script variant (lines 158-165). -/
def seniorCons (env : Env) : List LinCon :=
  if (seniorIndices env).isEmpty then []
  else
    (List.range env.numDays).flatMap fun d =>
      (List.range (numShifts env)).map fun s =>
        LinCon.ge ((seniorIndices env).map fun n => (n, d, s)) env.minSenior

/-- Block (6) of the solver-script variant (lines 171-181). -/
def workloadCons (env : Env) : List LinCon :=
  (List.range (numNurses env)).flatMap fun n =>
    [LinCon.ge (nurseVars env n) env.minWork, LinCon.le (nurseVars env n) env.maxWork]

/-- Block (D) of the solver-script variant (lines 249-254). -/
def consecCons (env : Env) : List LinCon :=
  (List.range (numNurses env)).flatMap fun n =>
    (List.range (env.numDays - 6)).map fun d =>
      LinCon.le (windowVars env n d) 6

/-- The `obj_terms` list of the solver-script variant (lines 195-242):
unlike the api variant, all 2-day indicators of all nurses come first,
then - under the `num_days >= 3` guard - all 3-day indicators of all
nurses, then the fairness and total-shift terms. -/
def objTerms (env : Env) : List ObjTerm :=
  (if flowerActive env then
    ((List.range (numNurses env)).flatMap fun n =>
      (List.range (env.numDays - 1)).map fun d => ObjTerm.dn n d) ++
    (if 3 ≤ env.numDays then
      (List.range (numNurses env)).flatMap fun n =>
        (List.range (env.numDays - 2)).map fun d => ObjTerm.dnd n d
     else [])
   else []) ++ [ObjTerm.spread, ObjTerm.allShifts]

/-- `buildModel` for the solver-script variant. -/
def buildModel (data : InputData) : Except PyErr Model :=
  match parse data with
  | .error e => .error e
  | .ok env =>
    match preConsList env env.preAssigned with
    | .error e => .error e
    | .ok pre =>
      .ok
        { env := env
          cons := forbiddenCons env ++ amoCons env ++ pre ++ restCons env ++
            demandCons env ++ seniorCons env ++ workloadCons env ++ consecCons env
          objTerms := objTerms env }

/-- The solution decoder of the solver-script variant (lines 268-290). -/
def decode (env : Env) (c : Cube) : List ScheduleRecord :=
  (List.range (numNurses env)).flatMap fun n =>
    (List.range env.numDays).flatMap fun d =>
      (emission env c n d).toList

/-- The `(max_time_in_seconds, num_search_workers)` solver parameters of
the solver-script variant. -/
def solverParams : Nat × Nat := (60, 8)

/-- The solver-script variant additionally sets
`solver.parameters.log_search_progress = False` (line 263); the api
variant never touches this parameter. -/
def logSearchProgress : Option Bool := some false

/-- The result dictionary of the solver-script variant: its success
envelope carries an extra `status` field, and its infeasibility envelope
an extra `details` field (`none` on the exception path, which emits no
`details` key). -/
inductive SVResult where
  | success (status : String) (schedules : List ScheduleRecord)
  | failure (error : String) (details : Option String)
deriving DecidableEq

/-- The infeasibility failure message of the solver-script variant
(line 300), with the backend status name abstracted to the same
representative the api variant's embedding uses. -/
def infeasibleMsg : String := "無可行解 (Status: INFEASIBLE)"

/-- The `details` hint of the solver-script variant's infeasibility
envelope (line 301). -/
def infeasibleDetails : String := "可能原因：人力不足無法滿足最低需求，或是預假過多導致無法排班。"

/-- The `status` field of the solver-script variant's success envelope,
`solver.StatusName(status)` for a found assignment; the backend
abstraction carries no status name, so it is abstracted to one
representative of the OPTIMAL/FEASIBLE pair. -/
def successStatus : String := "OPTIMAL"

/-- The body of the solver-script variant's `solve_schedule` without the
outer `try/except` (lines 17-302). -/
def solveBody (backend : Backend) (data : InputData) : Except PyErr SVResult :=
  match buildModel data with
  | .error e => .error e
  | .ok m =>
    match backend m with
    | some a => .ok (.success successStatus (decode m.env a.cube))
    | none => .ok (.failure infeasibleMsg (some infeasibleDetails))

/-- The outer `try/except` of the solver-script variant (lines 304-306):
an exception becomes `{"success": False, "error": str(e)}`, with no
`details` key. -/
def solveCaught (backend : Backend) (data : InputData) : Except PyErr SVResult :=
  match solveBody backend data with
  | .ok r => .ok r
  | .error e => .ok (.failure e.message none)

/-- `solve_schedule` of `src/solver/schedule_optimizer.py` as a
function. -/
def solve_schedule (backend : Backend) (data : InputData) : SVResult :=
  match solveCaught backend data with
  | .ok r => r
  | .error e => .failure e.message none

end SV

/-- The api variant never sets `log_search_progress`. -/
def apiLogSearchProgress : Option Bool := none

/-! Concrete inputs and assignments used by counterexamples and witnesses. -/

/-- The all-off assignment: no nurse works any shift. -/
def offAsg : Asg :=
  { cube := fun _ _ _ => false
    maxShifts := 0
    minShifts := 0
    dn := fun _ _ => false
    dnd := fun _ _ => false }

/-- A backend run that returns the all-off assignment. -/
def oracleOff : Backend := fun _ => some offAsg

/-- A roster of one junior nurse, a catalog with only a day shift,
February 2023 (input month is 0-based), `minWorkingDays` relaxed to 0,
`minSeniorCount = 1` and the (ignored) senior-coverage flag set. -/
def data1 : InputData :=
  { nurses := some [{ id := "n1", level := some "N1" }]
    shiftTypes := some [{ id := "s1", code := "D" }]
    year := some 2023
    month := some 1
    wardConfig := { minWorkingDays := some 0 }
    constraints := { minSeniorCount := some 1, seniorNurseCoverage := some true } }

/-- A valid input with a day and a night shift in the catalog. -/
def data2 : InputData :=
  { nurses := some [{ id := "n1", level := some "N1" }]
    shiftTypes := some [{ id := "s1", code := "D" }, { id := "s3", code := "N" }]
    year := some 2023
    month := some 1
    wardConfig := { minWorkingDays := some 0 } }

/-- A valid input with one nurse pinned to the day shift on day 1. -/
def data5 : InputData :=
  { nurses := some [{ id := "n1", level := some "N1" }]
    shiftTypes := some [{ id := "s1", code := "D" }]
    year := some 2023
    month := some 1
    wardConfig := { minWorkingDays := some 0 }
    preAssigned := [{ nurseId := some "n1", date := some "2023-02-01", shiftCode := some "D" }] }

/-- The assignment realizing the pin of `data5`: nurse 0 works shift 0 on
day 0 and nothing else. -/
def pinAsg : Asg :=
  { cube := fun n d s => n == 0 && d == 0 && s == 0
    maxShifts := 1
    minShifts := 1
    dn := fun _ _ => false
    dnd := fun _ _ => false }

/-- An input with everything present except the `month` key. -/
def noMonthData : InputData :=
  { nurses := some [{ id := "n1", level := some "N1" }]
    shiftTypes := some [{ id := "s1", code := "D" }]
    year := some 2023 }

/-- An input whose `nurses` key is absent. -/
def noNursesData : InputData :=
  { shiftTypes := some [{ id := "s1", code := "D" }]
    year := some 2023
    month := some 1 }

/-- An input whose 0-based month 12 yields the out-of-range month 13. -/
def badMonthData : InputData :=
  { nurses := some [{ id := "n1", level := some "N1" }]
    shiftTypes := some [{ id := "s1", code := "D" }]
    year := some 2023
    month := some 12 }

/-- An input with a pre-assignment entry that is missing its `nurseId`
field. -/
def badPreData : InputData :=
  { nurses := some [{ id := "n1", level := some "N1" }]
    shiftTypes := some [{ id := "s1", code := "D" }]
    year := some 2023
    month := some 1
    preAssigned := [{ date := some "2023-02-05", shiftCode := some "D" }] }

/-- A cube with two true shift variables at the same (nurse, day) pair. -/
def multiCube : Cube := fun n d _ => n == 0 && d == 0

/-- A valid input whose built model is unsatisfiable: one nurse, a
day-shift catalog, and `minNursesDay = 2`, so every day demands two
nurses on the day shift out of a roster of one. -/
def data10 : InputData :=
  { nurses := some [{ id := "n1", level := some "N2" }]
    shiftTypes := some [{ id := "s1", code := "D" }]
    year := some 2023
    month := some 1
    wardConfig := { minNursesDay := some 2, minWorkingDays := some 0 } }

/-- The backend run reporting no assignment (the INFEASIBLE/UNKNOWN
statuses) - on an unsatisfiable model the only sound backend
behaviour. -/
def oracleNone : Backend := fun _ => none

instance : Inhabited Env :=
  ⟨mkEnv [] [] 0 0 0 {} {} [] []⟩

instance : Inhabited Model :=
  ⟨{ env := default, cons := [], objTerms := [] }⟩

/-- Statement scaffolding: the model a given input builds (meaningful only
when `buildModel` returns one, which each use establishes separately). -/
def mOf (data : InputData) : Model :=
  match buildModel data with
  | .ok (some m) => m
  | _ => default

/-- Statement scaffolding: the model the solver-script variant builds
(meaningful only when `SV.buildModel` returns one). -/
def svmOf (data : InputData) : Model :=
  match SV.buildModel data with
  | .ok m => m
  | _ => default

/-! Claim-side formulas (spec wording) used by the theorem statements. -/

/-- Claim-side 2-day flower pattern at (n, d): day shift on `d` and night
shift on `d+1` both assigned. -/
def patt2 (env : Env) (c : Cube) (n d : Nat) : Bool :=
  match env.idxD, env.idxN with
  | some iD, some iN => c n d iD && c n (d + 1) iN
  | _, _ => false

/-- Claim-side 3-day flower pattern at (n, d): day, night, day. -/
def patt3 (env : Env) (c : Cube) (n d : Nat) : Bool :=
  match env.idxD, env.idxN with
  | some iD, some iN => c n d iD && c n (d + 1) iN && c n (d + 2) iD
  | _, _ => false

/-- Claim-side count of 2-day flower occurrences (0 when the flower block
is inactive). -/
def flowerCount2 (env : Env) (c : Cube) : Nat :=
  if flowerActive env then
    ((List.range (numNurses env)).map fun n =>
      (List.range (env.numDays - 1)).countP fun d => patt2 env c n d).sum
  else 0

/-- Claim-side count of 3-day flower occurrences. -/
def flowerCount3 (env : Env) (c : Cube) : Nat :=
  if flowerActive env && decide (3 ≤ env.numDays) then
    ((List.range (numNurses env)).map fun n =>
      (List.range (env.numDays - 2)).countP fun d => patt3 env c n d).sum
  else 0

/-- The grand total of all working-shift variables. -/
def totalLoadInt (env : Env) (c : Cube) : Int :=
  ((List.range (numNurses env)).map fun n => lsum c (nurseVars env n)).sum

/-- Scaffolding for the C1 counterexample: `data1` builds a model with no
senior-coverage constraint at all, and the all-off assignment satisfies
it. -/
def c1feasible : Bool :=
  match buildModel data1 with
  | .ok (some m) => satisfiesB m offAsg && (seniorCons m.env).isEmpty
  | _ => false

/-! General lemmas about the embedding. -/

theorem lsum_eq_countP (c : Cube) (vs : List (Nat × Nat × Nat)) :
    lsum c vs = ((vs.countP fun v => c v.1 v.2.1 v.2.2 : Nat) : Int) := by
  induction vs with
  | nil => rfl
  | cons v vs ih =>
    simp only [lsum, List.map_cons, List.sum_cons, List.countP_cons] at *
    split <;> simp_all <;> omega

theorem lsum_nonneg (c : Cube) (vs : List (Nat × Nat × Nat)) : 0 ≤ lsum c vs := by
  rw [lsum_eq_countP]; exact Int.natCast_nonneg _

theorem lsum_single (c : Cube) (v : Nat × Nat × Nat) :
    lsum c [v] = if c v.1 v.2.1 v.2.2 then 1 else 0 := by
  simp [lsum]

/-- Inversion of the `buildModel` pipeline of the api variant. -/
theorem buildModel_inv {data : InputData} {m : Model}
    (h : buildModel data = .ok (some m)) :
    parseInput data = .ok (.done m.env) ∧
    ∃ pre, preConsList m.env m.env.preAssigned = .ok pre ∧
      m.cons = forbiddenCons m.env ++ amoCons m.env ++ pre ++ restCons m.env ++
        demandCons m.env ++ seniorCons m.env ++ workloadCons m.env ++ consecCons m.env ∧
      m.objTerms = apiObjTerms m.env := by
  unfold buildModel at h
  split at h
  · exact absurd h (by simp)
  · exact absurd h (by simp)
  · rename_i env hp
    split at h
    · exact absurd h (by simp)
    · rename_i pre hq
      simp only [Except.ok.injEq, Option.some.injEq] at h
      subst h
      exact ⟨hp, pre, hq, rfl, rfl⟩

theorem monthDays_ge (y : Int) (k : Nat) (h1 : 1 ≤ k) (h2 : k ≤ 12) :
    28 ≤ monthDays y k := by
  interval_cases k <;> simp [monthDays] <;> split <;> omega

/-- Inversion of `monthrangeDays`. -/
theorem monthrangeDays_ok {y m : Int} {nd : Nat}
    (h : monthrangeDays y m = .ok nd) :
    1 ≤ m ∧ m ≤ 12 ∧ 1 ≤ y ∧ y ≤ 9999 ∧ nd = monthDays y m.toNat := by
  unfold monthrangeDays at h
  split at h
  · exact absurd h (by simp)
  · rename_i h1
    split at h
    · exact absurd h (by simp)
    · rename_i h2
      simp only [Except.ok.injEq] at h
      simp only [Bool.or_eq_true, decide_eq_true_eq, not_or] at h1 h2
      exact ⟨by omega, by omega, by omega, by omega, h.symm⟩

/-- Inversion of the parsing prefix of the api variant: the environment's
fields in terms of the input. -/
theorem parseInput_done {data : InputData} {env : Env}
    (h : parseInput data = .ok (.done env)) :
    ∃ nurses shiftTypes y m0 nd,
      data.nurses = some nurses ∧ data.shiftTypes = some shiftTypes ∧
      data.year = some y ∧ data.month = some m0 ∧
      nurses.isEmpty = false ∧ shiftTypes.isEmpty = false ∧
      monthrangeDays y (m0 + 1) = .ok nd ∧
      env = mkEnv nurses shiftTypes y (m0 + 1) nd data.wardConfig
        data.constraints data.preAssigned data.nurseForbiddenShifts := by
  unfold parseInput at h
  split at h
  · exact absurd h (by simp)
  · rename_i m0 hm
    split at h
    · exact absurd h (by simp)
    · rename_i y hy
      split at h
      · exact absurd h (by simp)
      · rename_i hne
        cases hr : monthrangeDays y (m0 + 1) with
        | error e => rw [hr] at h; exact absurd h (by simp [Except.map])
        | ok nd =>
          rw [hr] at h
          simp only [Except.map, Except.ok.injEq, Parsed.done.injEq] at h
          rw [Bool.not_eq_true, Bool.or_eq_false_iff] at hne
          refine ⟨data.nurses.getD [], data.shiftTypes.getD [], y, m0, nd,
            ?_, ?_, hy, hm, hne.1, hne.2, hr, h.symm⟩
          · cases hn : data.nurses with
            | none =>
              rw [hn] at hne
              simp [List.isEmpty] at hne
            | some ns => simp [hn]
          · cases hs : data.shiftTypes with
            | none =>
              rw [hs] at hne
              simp [List.isEmpty] at hne
            | some ss => simp [hs]

/-- Every month the parser accepts has at least 28 days. -/
theorem parse_numDays {data : InputData} {env : Env}
    (h : parseInput data = .ok (.done env)) : 28 ≤ env.numDays := by
  obtain ⟨ns, ss, y, m0, nd, -, -, -, -, -, -, hr, henv⟩ := parseInput_done h
  obtain ⟨h1, h2, -, -, hnd⟩ := monthrangeDays_ok hr
  have : env.numDays = nd := by rw [henv]; rfl
  rw [this, hnd]
  exact monthDays_ge y _ (by omega) (by omega)

/-- A satisfying assignment satisfies every emitted linear constraint. -/
theorem satisfies_all {m : Model} {a : Asg} (h : satisfiesB m a = true) :
    ∀ lc ∈ m.cons, lc.holds a.cube = true := by
  have := (Bool.and_eq_true ..).mp ((Bool.and_eq_true ..).mp h).1
  exact fun lc hm => List.all_eq_true.mp this.1 lc hm

theorem satisfies_fair {m : Model} {a : Asg} (h : satisfiesB m a = true) :
    fairOK m.env a = true := by
  have := (Bool.and_eq_true ..).mp h
  exact ((Bool.and_eq_true ..).mp this.1).2

theorem satisfies_flower {m : Model} {a : Asg} (h : satisfiesB m a = true) :
    flowerOK m.env a = true := by
  exact ((Bool.and_eq_true ..).mp h).2

/-! Lemmas about `dictLastIdx`. -/

theorem dictFoldl_keep {α : Type} (f : α → String) (k : String) :
    ∀ (l : List α) (j : Nat) (acc : Option Nat), (∀ x ∈ l, f x ≠ k) →
      (List.enumFrom j l).foldl
        (fun acc p => if f p.2 = k then some p.1 else acc) acc = acc := by
  intro l
  induction l with
  | nil => intro j acc _; rfl
  | cons x xs ih =>
    intro j acc hne
    have hx : f x ≠ k := hne x (by simp)
    simp only [List.enumFrom, List.foldl_cons, if_neg hx]
    exact ih (j + 1) acc fun z hz => hne z (by simp [hz])

theorem dictFoldl_some {α : Type} (f : α → String) (k : String) :
    ∀ (l : List α) (j : Nat) (acc : Option Nat) (i : Nat),
      (List.enumFrom j l).foldl
        (fun acc p => if f p.2 = k then some p.1 else acc) acc = some i →
      (acc = some i ∧ ∀ x ∈ l, f x ≠ k) ∨
      (∃ t x, l[t]? = some x ∧ f x = k ∧ i = j + t) := by
  intro l
  induction l with
  | nil => intro j acc i h; exact Or.inl ⟨h, by simp⟩
  | cons x xs ih =>
    intro j acc i h
    simp only [List.enumFrom, List.foldl_cons] at h
    rcases ih (j + 1) (if f x = k then some j else acc) i h with
      ⟨hacc, hall⟩ | ⟨t, z, hz, hfz, hi⟩
    · by_cases hx : f x = k
      · rw [if_pos hx] at hacc
        refine Or.inr ⟨0, x, by simp, hx, ?_⟩
        simpa using hacc.symm
      · rw [if_neg hx] at hacc
        refine Or.inl ⟨hacc, ?_⟩
        intro z hz
        rcases List.mem_cons.mp hz with rfl | hz2
        · exact hx
        · exact hall z hz2
    · exact Or.inr ⟨t + 1, z, by simpa using hz, hfz, by omega⟩

/-- When `dictLastIdx` returns an index, that index holds an element with
the looked-up key. -/
theorem dictLastIdx_some {α : Type} {f : α → String} {l : List α} {k : String}
    {i : Nat} (h : dictLastIdx f l k = some i) :
    ∃ x, l[i]? = some x ∧ f x = k := by
  unfold dictLastIdx at h
  rcases dictFoldl_some f k l 0 none i h with ⟨hacc, -⟩ | ⟨t, x, hx, hfx, hi⟩
  · cases hacc
  · exact ⟨x, by simpa [hi] using hx, hfx⟩

theorem dictLastIdx_lt {α : Type} {f : α → String} {l : List α} {k : String}
    {i : Nat} (h : dictLastIdx f l k = some i) : i < l.length := by
  obtain ⟨x, hx, -⟩ := dictLastIdx_some h
  exact (List.getElem?_eq_some.mp hx).1

theorem dictFoldl_none {α : Type} (f : α → String) (k : String) :
    ∀ (l : List α) (j : Nat) (acc : Option Nat),
      (List.enumFrom j l).foldl
        (fun acc p => if f p.2 = k then some p.1 else acc) acc = none →
      acc = none ∧ ∀ x ∈ l, f x ≠ k := by
  intro l
  induction l with
  | nil => intro j acc h; exact ⟨h, by simp⟩
  | cons x xs ih =>
    intro j acc h
    simp only [List.enumFrom, List.foldl_cons] at h
    obtain ⟨hstep, hall⟩ := ih (j + 1) _ h
    by_cases hx : f x = k
    · rw [if_pos hx] at hstep; cases hstep
    · rw [if_neg hx] at hstep
      refine ⟨hstep, fun z hz => ?_⟩
      rcases List.mem_cons.mp hz with rfl | hz2
      · exact hx
      · exact hall z hz2

/-- `dictLastIdx` fails exactly when no element has the key. -/
theorem dictLastIdx_none {α : Type} (f : α → String) (l : List α) (k : String) :
    dictLastIdx f l k = none ↔ ∀ x ∈ l, f x ≠ k := by
  constructor
  · intro h
    exact (dictFoldl_none f k l 0 none h).2
  · intro h
    unfold dictLastIdx
    exact dictFoldl_keep f k l 0 none h

/-- A list without duplicates containing two distinct elements satisfying
`p` has `countP p` at least 2. -/
theorem two_le_countP {α : Type} {l : List α} {p : α → Bool} {a b : α}
    (hnd : l.Nodup) (ha : a ∈ l) (hb : b ∈ l) (hne : a ≠ b)
    (pa : p a = true) (pb : p b = true) : 2 ≤ l.countP p := by
  induction l with
  | nil => cases ha
  | cons x xs ih =>
    rw [List.countP_cons]
    have hnd2 := (List.nodup_cons.mp hnd).2
    have hxnotin := (List.nodup_cons.mp hnd).1
    rcases List.mem_cons.mp ha with rfl | ha2
    · have hb2 : b ∈ xs := by
        rcases List.mem_cons.mp hb with rfl | h2
        · exact absurd rfl hne
        · exact h2
      have : 0 < xs.countP p := List.countP_pos_iff.mpr ⟨b, hb2, pb⟩
      rw [if_pos pa]
      omega
    · rcases List.mem_cons.mp hb with rfl | hb2
      · have : 0 < xs.countP p := List.countP_pos_iff.mpr ⟨a, ha2, pa⟩
        rw [if_pos pb]
        omega
      · have := ih hnd2 ha2 hb2
        split <;> omega

/-- `find?` over `range k` returns the least index satisfying the
predicate. -/
theorem range_find?_least {p : Nat → Bool} :
    ∀ {k s : Nat}, (List.range k).find? p = some s →
      s < k ∧ p s = true ∧ ∀ j < s, p j = false := by
  intro k
  induction k with
  | zero => intro s h; cases h
  | succ k ih =>
    intro s h
    rw [List.range_succ, List.find?_append] at h
    cases hk : (List.range k).find? p with
    | some t =>
      rw [hk] at h
      simp only [Option.or_some] at h
      obtain ⟨h1, h2, h3⟩ := ih (h ▸ hk)
      exact ⟨by omega, h2, h3⟩
    | none =>
      rw [hk] at h
      simp only [Option.none_or] at h
      have hall := List.find?_eq_none.mp hk
      cases hs : p k with
      | false => simp [List.find?, hs] at h
      | true =>
        simp only [List.find?, hs] at h
        have : k = s := by simpa using h
        subst this
        refine ⟨by omega, hs, fun j hj => ?_⟩
        have := hall j (List.mem_range.mpr hj)
        simpa using this

/-- Sum of an if-then-else map counts the positives. -/
theorem sum_map_ite {α : Type} (l : List α) (p : α → Bool) (c : Int) :
    (l.map fun x => if p x then c else 0).sum = c * (l.countP p : Nat) := by
  induction l with
  | nil => simp
  | cons x xs ih =>
    simp only [List.map_cons, List.sum_cons, List.countP_cons, ih]
    split
    · push_cast
      ring
    · push_cast
      ring

/-- Summing a map over a flat map, nurse block by nurse block. -/
theorem sum_map_flatMap {α β : Type} (xs : List α) (g : α → List β) (f : β → Int) :
    (((xs.flatMap g).map f).sum) = (xs.map fun x => ((g x).map f).sum).sum := by
  induction xs with
  | nil => rfl
  | cons x xs ih =>
    simp only [List.flatMap_cons, List.map_append, List.sum_append, List.map_cons,
      List.sum_cons, ih]

/-- A pointwise append inside a flat map can be pulled apart, up to
permutation. -/
theorem flatMap_append_perm {α β : Type} (xs : List α) (f g : α → List β) :
    ((xs.flatMap fun x => f x ++ g x).Perm (xs.flatMap f ++ xs.flatMap g)) := by
  induction xs with
  | nil => simp
  | cons x xs ih =>
    simp only [List.flatMap_cons]
    have h1 : ((f x ++ g x) ++ xs.flatMap fun y => f y ++ g y).Perm
        ((f x ++ g x) ++ (xs.flatMap f ++ xs.flatMap g)) := ih.append_left _
    refine h1.trans ?_
    simp only [List.append_assoc]
    refine List.Perm.append_left _ ?_
    rw [← List.append_assoc, ← List.append_assoc]
    exact (List.perm_append_comm).append_right _

/-- When the pre-assignment block succeeds, its constraint list is the
concatenation of the per-entry contributions, and every entry of the list
contributes its block. -/
theorem preConsList_ok {env : Env} :
    ∀ {ps : List PreAssignment} {l : List LinCon},
      preConsList env ps = .ok l →
      ∀ p ∈ ps, ∀ nid nIdx, p.nurseId = some nid →
        dictLastIdx Nurse.id env.nurses nid = some nIdx →
        ∀ lc ∈ preEntryCons env nIdx p, lc ∈ l := by
  intro ps
  induction ps with
  | nil => intro l h p hp; cases hp
  | cons q ps ih =>
    intro l h p hp nid nIdx hnid hidx lc hlc
    unfold preConsList at h
    cases hq : q.nurseId with
    | none => rw [hq] at h; cases h
    | some qid =>
      rw [hq] at h
      cases hrest : preConsList env ps with
      | error e => rw [hrest] at h; cases h
      | ok others =>
        rw [hrest] at h
        simp only [Except.map, Except.ok.injEq] at h
        subst h
        rcases List.mem_cons.mp hp with rfl | hp2
        · rw [hq] at hnid
          cases hnid
          rw [hidx]
          exact List.mem_append.mpr (Or.inl hlc)
        · exact List.mem_append.mpr (Or.inr (ih hrest p hp2 nid nIdx hnid hidx lc hlc))

/-- Field view of the parsed environment: the `minShiftInterval11h` flag
resolves through `.get(key, True)`. -/
theorem env_minInterval {data : InputData} {env : Env}
    (h : parseInput data = .ok (.done env)) :
    env.minInterval = data.constraints.minShiftInterval11h.getD true := by
  obtain ⟨ns, ss, y, m0, nd, -, -, -, -, -, -, -, henv⟩ := parseInput_done h
  rw [henv]
  rfl

/-! Claim C7. -/

/-- Claim C7 (code bug): the claim says a missing `month` is reported as a
missing-input failure before any model is built.  The code instead hits
`data.get('month') + 1`, which raises `TypeError` on `None`, caught by the
outer handler: the returned failure carries the generic exception text,
not the missing-data report (the later `month is None` validation check is
unreachable).  Missing `nurses` (with `month` present), by contrast, does
produce the missing-data report.  In both cases no model is built. -/
theorem C7_month_missing_generic_failure :
    solve_schedule oracleOff noMonthData = .failure monthTypeErr.message ∧
    monthTypeErr.message ≠ missingMsg ∧
    buildModel noMonthData = .error monthTypeErr ∧
    solve_schedule oracleOff noNursesData = .failure missingMsg ∧
    buildModel noNursesData = .ok none := by
  exact ⟨by decide, by decide, by decide, by decide, by decide⟩

/-! Claim C8. -/

/-- Claim C8 (confirmed): for every input and every backend behaviour the
outer `try/except` yields a structured result - the `.error` branch of
`solveCaught` is never taken, and the result is either a success with
schedules or a failure with an error message.  In particular an
out-of-range month and a pre-assignment entry missing its `nurseId` field
both come back as structured failures. -/
theorem C8_solve_total_and_structured :
    (∀ (backend : Backend) (data : InputData), ∃ r, solveCaught backend data = .ok r) ∧
    (∀ (backend : Backend) (data : InputData),
      (∃ scheds, solve_schedule backend data = .success scheds) ∨
      (∃ msg, solve_schedule backend data = .failure msg)) ∧
    solveCaught oracleOff badMonthData = .ok (.failure (PyErr.illegalMonth 13).message) ∧
    solveCaught oracleOff badPreData = .ok (.failure (PyErr.keyError "nurseId").message) := by
  refine ⟨?_, ?_, by decide, by decide⟩
  · intro backend data
    unfold solveCaught
    cases solveBody backend data with
    | ok r => exact ⟨r, rfl⟩
    | error e => exact ⟨.failure e.message, rfl⟩
  · intro backend data
    cases h : solve_schedule backend data with
    | success s => exact Or.inl ⟨s, rfl⟩
    | failure e => exact Or.inr ⟨e, rfl⟩

/-! Claim C1. -/

/-- Claim C1 (counterexample): `data1` has a roster with zero senior-level
nurses, `minSeniorCount = 1` and the senior-coverage flag set, yet
`solve_schedule` returns a SUCCESS, not an infeasibility failure: the
senior block emits no constraint at all when `senior_indices` is empty,
and the all-off assignment satisfies the whole built model, as a sound
backend run (`oracleOff`) exhibits. -/
theorem C1_counterexample :
    (data1.nurses.getD []).countP isSenior = 0 ∧
    data1.constraints.minSeniorCount = some 1 ∧
    data1.constraints.seniorNurseCoverage = some true ∧
    c1feasible = true ∧
    (solve_schedule oracleOff data1).isSuccess = true := by
  exact ⟨by decide, by decide, by decide, by decide, by decide⟩

/-- Claim C1 (amended): with zero senior-level nurses in the roster the
senior-coverage block is skipped entirely - no constraint is emitted - so
the result is not forced to be an infeasibility failure: whenever the
backend returns an assignment for the remaining constraints the solve
succeeds. -/
theorem C1_amended :
    (∀ env, seniorIndices env = [] → seniorCons env = []) ∧
    (∀ (backend : Backend) (data : InputData) (m : Model) (a : Asg),
      buildModel data = .ok (some m) → backend m = some a →
      (solve_schedule backend data).isSuccess = true) := by
  constructor
  · intro env h
    unfold seniorCons
    rw [h]
    rfl
  · intro backend data m a hb hback
    simp [solve_schedule, solveCaught, solveBody, hb, hback, SolveResult.isSuccess]

/-- Witness for the amended C1 at the concrete zero-senior input. -/
theorem C1_amended_witness :
    (seniorIndices (mOf data1).env = [] ∧ seniorCons (mOf data1).env = []) ∧
    (buildModel data1 = .ok (some (mOf data1)) ∧
      (solve_schedule oracleOff data1).isSuccess = true) :=
  ⟨⟨by decide, C1_amended.1 (mOf data1).env (by decide)⟩,
   ⟨by decide, C1_amended.2 oracleOff data1 (mOf data1) offAsg (by decide) rfl⟩⟩

/-! Claim C3. -/

/-- Claim C3 (confirmed): the sliding-window block emits exactly one
constraint per nurse and per start day of a 7-day window lying fully
inside the month (start days 0 through `dayCount - 7`), each capping the
window's working-shift total at 6; windows running past the month's end
yield no constraint, and every satisfying assignment obeys every in-month
window cap. -/
theorem C3_consecutive_window (data : InputData) (m : Model)
    (hb : buildModel data = .ok (some m)) :
    (∀ lc, lc ∈ consecCons m.env ↔
      ∃ n d, n < numNurses m.env ∧ d + 7 ≤ m.env.numDays ∧
        lc = LinCon.le (windowVars m.env n d) 6) ∧
    (∀ a, satisfiesB m a = true →
      ∀ n d, n < numNurses m.env → d + 7 ≤ m.env.numDays →
        lsum a.cube (windowVars m.env n d) ≤ 6) := by
  obtain ⟨hp, pre, hpre, hcons, hobj⟩ := buildModel_inv hb
  have hD := parse_numDays hp
  constructor
  · intro lc
    unfold consecCons
    simp only [List.mem_flatMap, List.mem_map, List.mem_range]
    constructor
    · rintro ⟨n, hn, d, hd, rfl⟩
      exact ⟨n, d, hn, by omega, rfl⟩
    · rintro ⟨n, d, hn, hd, rfl⟩
      exact ⟨n, hn, d, by omega, rfl⟩
  · intro a ha n d hn hd
    have hmem : LinCon.le (windowVars m.env n d) 6 ∈ m.cons := by
      rw [hcons]
      have : LinCon.le (windowVars m.env n d) 6 ∈ consecCons m.env := by
        unfold consecCons
        simp only [List.mem_flatMap, List.mem_map, List.mem_range]
        exact ⟨n, hn, d, by omega, rfl⟩
      simp only [List.mem_append]
      tauto
    have := satisfies_all ha _ hmem
    simpa [LinCon.holds] using this

/-- Witness for C3: the first window constraint of a concrete build. -/
theorem C3_witness : lsum offAsg.cube (windowVars (mOf data2).env 0 0) ≤ 6 :=
  (C3_consecutive_window data2 (mOf data2) (by decide)).2 offAsg (by decide)
    0 0 (by decide) (by decide)

/-! Claim C4. -/

/-- Membership in one forbidden-succession pair block. -/
theorem pairCon_mem {o1 o2 : Option Nat} {n d : Nat} {lc : LinCon} :
    lc ∈ pairCon o1 o2 n d ↔
      ∃ i j, o1 = some i ∧ o2 = some j ∧
        lc = LinCon.le [(n, d, i), (n, d + 1, j)] 1 := by
  cases o1 <;> cases o2 <;> simp [pairCon]

/-- Claim C4 (confirmed): when `minShiftInterval11h` resolves to true
(enabled or absent), the rest block contains, for every nurse and every
consecutive-day pair, the constraints evening+day, night+evening and
night+day each bounded by 1 - each emitted exactly when both referenced
shift codes exist in the catalog, and skipped otherwise. -/
theorem C4_rest_interval (data : InputData) (m : Model)
    (hb : buildModel data = .ok (some m))
    (hflag : data.constraints.minShiftInterval11h.getD true = true) :
    (∀ n d, n < numNurses m.env → d + 1 < m.env.numDays →
      (∀ iE iD, m.env.idxE = some iE → m.env.idxD = some iD →
        LinCon.le [(n, d, iE), (n, d + 1, iD)] 1 ∈ m.cons) ∧
      (∀ iN iE, m.env.idxN = some iN → m.env.idxE = some iE →
        LinCon.le [(n, d, iN), (n, d + 1, iE)] 1 ∈ m.cons) ∧
      (∀ iN iD, m.env.idxN = some iN → m.env.idxD = some iD →
        LinCon.le [(n, d, iN), (n, d + 1, iD)] 1 ∈ m.cons)) ∧
    (∀ lc, lc ∈ restCons m.env ↔
      ∃ n d, n < numNurses m.env ∧ d + 1 < m.env.numDays ∧
        ((∃ iE iD, m.env.idxE = some iE ∧ m.env.idxD = some iD ∧
            lc = LinCon.le [(n, d, iE), (n, d + 1, iD)] 1) ∨
         (∃ iN iE, m.env.idxN = some iN ∧ m.env.idxE = some iE ∧
            lc = LinCon.le [(n, d, iN), (n, d + 1, iE)] 1) ∨
         (∃ iN iD, m.env.idxN = some iN ∧ m.env.idxD = some iD ∧
            lc = LinCon.le [(n, d, iN), (n, d + 1, iD)] 1))) := by
  obtain ⟨hp, pre, hpre, hcons, hobj⟩ := buildModel_inv hb
  have hfl : m.env.minInterval = true := by rw [env_minInterval hp, hflag]
  have hD := parse_numDays hp
  have hchar : ∀ lc, lc ∈ restCons m.env ↔
      ∃ n d, n < numNurses m.env ∧ d + 1 < m.env.numDays ∧
        ((∃ iE iD, m.env.idxE = some iE ∧ m.env.idxD = some iD ∧
            lc = LinCon.le [(n, d, iE), (n, d + 1, iD)] 1) ∨
         (∃ iN iE, m.env.idxN = some iN ∧ m.env.idxE = some iE ∧
            lc = LinCon.le [(n, d, iN), (n, d + 1, iE)] 1) ∨
         (∃ iN iD, m.env.idxN = some iN ∧ m.env.idxD = some iD ∧
            lc = LinCon.le [(n, d, iN), (n, d + 1, iD)] 1)) := by
    intro lc
    unfold restCons
    rw [hfl]
    simp only [if_true, List.mem_flatMap, List.mem_append, List.mem_range, pairCon_mem]
    constructor
    · rintro ⟨n, hn, d, hd, hor⟩
      exact ⟨n, d, hn, by omega, or_assoc.mp hor⟩
    · rintro ⟨n, d, hn, hd, hor⟩
      exact ⟨n, hn, d, by omega, or_assoc.mpr hor⟩
  refine ⟨?_, hchar⟩
  intro n d hn hd
  have hin : ∀ lc, lc ∈ restCons m.env → lc ∈ m.cons := by
    intro lc hlc
    rw [hcons]
    simp only [List.mem_append]
    tauto
  refine ⟨fun iE iD hE hD2 => ?_, fun iN iE hN hE => ?_, fun iN iD hN hD2 => ?_⟩
  · exact hin _ ((hchar _).mpr ⟨n, d, hn, hd, Or.inl ⟨iE, iD, hE, hD2, rfl⟩⟩)
  · exact hin _ ((hchar _).mpr ⟨n, d, hn, hd, Or.inr (Or.inl ⟨iN, iE, hN, hE, rfl⟩)⟩)
  · exact hin _ ((hchar _).mpr ⟨n, d, hn, hd, Or.inr (Or.inr ⟨iN, iD, hN, hD2, rfl⟩)⟩)

/-- Witness for C4: the night-then-day constraint of a concrete build. -/
theorem C4_witness : LinCon.le [(0, 0, 1), (0, 1, 0)] 1 ∈ (mOf data2).cons :=
  ((C4_rest_interval data2 (mOf data2) (by decide) (by decide)).1 0 0
    (by decide) (by decide)).2.2 1 0 (by decide) (by decide)

/-! Claim C6. -/

/-- Claim C6 (confirmed): the fairness block caps the load spread at 5 as
a hard constraint - every satisfying assignment has
`max(workingDaysPerNurse) - min(workingDaysPerNurse) <= 5` - and the
objective carries the spread term whose value is -50 times the spread. -/
theorem C6_fairness_spread (data : InputData) (m : Model) (a : Asg)
    (hb : buildModel data = .ok (some m)) (hs : satisfiesB m a = true) :
    ((natMax (loadsList m.env a.cube) : Int) - (natMin (loadsList m.env a.cube) : Int) ≤ 5) ∧
    ObjTerm.spread ∈ m.objTerms ∧
    ObjTerm.eval m.env a ObjTerm.spread =
      (-50) * ((natMax (loadsList m.env a.cube) : Int) - (natMin (loadsList m.env a.cube) : Int)) := by
  obtain ⟨hp, pre, hpre, hcons, hobj⟩ := buildModel_inv hb
  have hf := satisfies_fair hs
  unfold fairOK at hf
  simp only [Bool.and_eq_true, beq_iff_eq, decide_eq_true_eq] at hf
  obtain ⟨⟨⟨⟨h1, h2⟩, h3⟩, h4⟩, h5⟩ := hf
  refine ⟨by rw [← h3, ← h4]; exact h5, ?_, by simp [ObjTerm.eval, h3, h4]⟩
  rw [hobj]
  unfold apiObjTerms
  simp

/-- Witness for C6 at a concrete build and assignment. -/
theorem C6_witness :
    (natMax (loadsList (mOf data2).env offAsg.cube) : Int) -
      (natMin (loadsList (mOf data2).env offAsg.cube) : Int) ≤ 5 :=
  (C6_fairness_spread data2 (mOf data2) offAsg (by decide) (by decide)).1

/-! Claim C2. -/

/-- The 2-day reified constraint pair pins the indicator to the exact
boolean value of the pattern. -/
theorem dn_reif {c : Cube} {iD iN n d : Nat} {b : Bool}
    (h : (if b then lsum c (dnPatVars iD iN n d) == 2
          else decide (lsum c (dnPatVars iD iN n d) < 2)) = true) :
    b = (c n d iD && c n (d + 1) iN) := by
  cases b <;> cases h1 : c n d iD <;> cases h2 : c n (d + 1) iN <;>
    simp_all [lsum, dnPatVars]

/-- The 3-day reified constraint pair pins the indicator to the exact
boolean value of the pattern. -/
theorem dnd_reif {c : Cube} {iD iN n d : Nat} {b : Bool}
    (h : (if b then lsum c (dndPatVars iD iN n d) == 3
          else decide (lsum c (dndPatVars iD iN n d) < 3)) = true) :
    b = (c n d iD && c n (d + 1) iN && c n (d + 2) iD) := by
  cases b <;> cases h1 : c n d iD <;> cases h2 : c n (d + 1) iN <;>
      cases h3 : c n (d + 2) iD <;>
    simp_all [lsum, dndPatVars]

/-- An index into the filtered working-shift list exists for a working
code exactly when the catalog holds that code. -/
theorem filter_idx_isSome (sts : List ShiftType) (c : String)
    (hc : (["D", "E", "N"] : List String).contains c = true) :
    (dictLastIdx ShiftType.code
      (sts.filter fun s => (["D", "E", "N"] : List String).contains s.code) c).isSome
    = sts.any fun s => s.code == c := by
  cases h : dictLastIdx ShiftType.code
      (sts.filter fun s => (["D", "E", "N"] : List String).contains s.code) c with
  | none =>
    simp only [Option.isSome_none]
    symm
    rw [List.any_eq_false]
    intro s hs
    have hall := (dictLastIdx_none _ _ _).mp h
    by_contra hbeq
    simp only [Bool.not_eq_false, beq_iff_eq] at hbeq
    exact hall s (List.mem_filter.mpr ⟨hs, by rw [hbeq]; exact hc⟩) hbeq
  | some i =>
    simp only [Option.isSome_some]
    symm
    rw [List.any_eq_true]
    obtain ⟨x, hx, hcode⟩ := dictLastIdx_some h
    obtain ⟨hlt, hget⟩ := List.getElem?_eq_some.mp hx
    have hmem : x ∈ sts.filter fun s => (["D", "E", "N"] : List String).contains s.code := by
      rw [← hget]
      exact List.getElem_mem hlt
    exact ⟨x, (List.mem_filter.mp hmem).1, by simp [hcode]⟩

theorem sum_split (l : List Nat) (f g : Nat → Int) :
    (l.map fun n => f n + g n).sum = (l.map f).sum + (l.map g).sum := by
  induction l with
  | nil => simp
  | cons x xs ih =>
    simp only [List.map_cons, List.sum_cons, ih]
    ring

theorem sum_map_cast_mul (l : List Nat) (c : Int) (f : Nat → Nat) :
    (l.map fun n => c * (f n : Int)).sum = c * (((l.map f).sum : Nat) : Int) := by
  induction l with
  | nil => simp
  | cons x xs ih =>
    simp only [List.map_cons, List.sum_cons, ih]
    push_cast
    ring

/-- Claim C2 (confirmed): whenever a model is built, the objective handed
to `Maximize` evaluates, on every assignment satisfying the model, to
exactly `-50*(maxLoad - minLoad) - 20*(number of 2-day flower patterns)
- 40*(number of 3-day flower patterns) - 1*(total working-shift count)`;
the flower counts contribute only when `avoidFlowerPattern` resolves to
true and both codes D and N exist in the shift-type catalog, and every
created flower indicator is pinned biconditionally to its pattern. -/
theorem C2_objective_exact (data : InputData) (m : Model) (a : Asg)
    (hb : buildModel data = .ok (some m)) (hs : satisfiesB m a = true) :
    objValue m.env m.objTerms a =
      (-50) * ((natMax (loadsList m.env a.cube) : Int) - (natMin (loadsList m.env a.cube) : Int))
      + (-20) * ((flowerCount2 m.env a.cube : Nat) : Int)
      + (-40) * ((flowerCount3 m.env a.cube : Nat) : Int)
      + (-1) * totalLoadInt m.env a.cube ∧
    flowerActive m.env =
      (data.constraints.avoidFlowerPattern.getD true &&
       (data.shiftTypes.getD []).any (fun s => s.code == "D") &&
       (data.shiftTypes.getD []).any (fun s => s.code == "N")) ∧
    (flowerActive m.env = true →
      ∀ n d, n < numNurses m.env →
        (d + 1 < m.env.numDays → a.dn n d = patt2 m.env a.cube n d) ∧
        (d + 2 < m.env.numDays → a.dnd n d = patt3 m.env a.cube n d)) := by
  obtain ⟨hp, pre, hpre, hcons, hobj⟩ := buildModel_inv hb
  have hD := parse_numDays hp
  -- the biconditional pinning of indicators, from the reified block
  have hbic : flowerActive m.env = true →
      ∀ n d, n < numNurses m.env →
        (d + 1 < m.env.numDays → a.dn n d = patt2 m.env a.cube n d) ∧
        (d + 2 < m.env.numDays → a.dnd n d = patt3 m.env a.cube n d) := by
    intro hact n d hn
    have hact2 := hact
    simp only [flowerActive, Bool.and_eq_true] at hact2
    obtain ⟨⟨h1, h2⟩, h3⟩ := hact2
    obtain ⟨iD, hiD⟩ := Option.isSome_iff_exists.mp h2
    obtain ⟨iN, hiN⟩ := Option.isSome_iff_exists.mp h3
    have hflw := satisfies_flower hs
    unfold flowerOK at hflw
    rw [h1, hiD, hiN] at hflw
    simp only [if_true] at hflw
    simp only [List.all_eq_true, List.mem_range, Bool.and_eq_true] at hflw
    obtain ⟨hdn, hdnd⟩ := hflw n hn
    constructor
    · intro hd
      have := hdn d (by omega)
      rw [dn_reif this]
      simp [patt2, hiD, hiN]
    · intro hd
      rw [if_pos (by omega : 3 ≤ m.env.numDays)] at hdnd
      simp only [List.all_eq_true, List.mem_range] at hdnd
      have := hdnd d (by omega)
      rw [dnd_reif this]
      simp [patt3, hiD, hiN]
  -- the flower-activation flag in input terms
  have hchar : flowerActive m.env =
      (data.constraints.avoidFlowerPattern.getD true &&
       (data.shiftTypes.getD []).any (fun s => s.code == "D") &&
       (data.shiftTypes.getD []).any (fun s => s.code == "N")) := by
    obtain ⟨ns, ss, y, m0, nd, hns, hss, hy, hm, -, -, hr, henv⟩ := parseInput_done hp
    rw [henv, hss]
    simp only [Option.getD_some]
    unfold flowerActive mkEnv
    simp only
    rw [filter_idx_isSome ss "D" (by decide), filter_idx_isSome ss "N" (by decide)]
  -- fairness values
  have hf := satisfies_fair hs
  unfold fairOK at hf
  simp only [Bool.and_eq_true, beq_iff_eq, decide_eq_true_eq] at hf
  obtain ⟨⟨⟨⟨hf1, hf2⟩, hf3⟩, hf4⟩, hf5⟩ := hf
  refine ⟨?_, hchar, hbic⟩
  -- decompose the objective sum
  rw [hobj]
  unfold objValue apiObjTerms
  rw [List.map_append, List.sum_append]
  have hconst : (([ObjTerm.spread, ObjTerm.allShifts].map (ObjTerm.eval m.env a)).sum) =
      (-50) * ((natMax (loadsList m.env a.cube) : Int) - (natMin (loadsList m.env a.cube) : Int))
      + (-1) * totalLoadInt m.env a.cube := by
    simp only [List.map_cons, List.map_nil, List.sum_cons, List.sum_nil, add_zero]
    rw [show ObjTerm.eval m.env a ObjTerm.spread =
        (-50) * ((a.maxShifts : Int) - (a.minShifts : Int)) from rfl]
    rw [hf3, hf4]
    rfl
  rw [hconst]
  have hflower : (((if flowerActive m.env then
      (List.range (numNurses m.env)).flatMap fun n =>
        ((List.range (m.env.numDays - 1)).map fun d => ObjTerm.dn n d) ++
        (if 3 ≤ m.env.numDays then
          (List.range (m.env.numDays - 2)).map fun d => ObjTerm.dnd n d
         else [])
     else []).map (ObjTerm.eval m.env a)).sum) =
      (-20) * ((flowerCount2 m.env a.cube : Nat) : Int)
      + (-40) * ((flowerCount3 m.env a.cube : Nat) : Int) := by
    cases hact : flowerActive m.env with
    | false =>
      unfold flowerCount2 flowerCount3
      rw [hact]
      simp
    | true =>
      rw [if_pos rfl]
      rw [sum_map_flatMap]
      have hpern : ∀ n ∈ List.range (numNurses m.env),
          ((((List.range (m.env.numDays - 1)).map fun d => ObjTerm.dn n d) ++
            (if 3 ≤ m.env.numDays then
              (List.range (m.env.numDays - 2)).map fun d => ObjTerm.dnd n d
             else [])).map (ObjTerm.eval m.env a)).sum =
          (-20) * (((List.range (m.env.numDays - 1)).countP fun d =>
              patt2 m.env a.cube n d : Nat) : Int)
          + (-40) * (((List.range (m.env.numDays - 2)).countP fun d =>
              patt3 m.env a.cube n d : Nat) : Int) := by
        intro n hn
        rw [List.mem_range] at hn
        rw [if_pos (by omega : 3 ≤ m.env.numDays)]
        rw [List.map_append, List.sum_append, List.map_map, List.map_map]
        have e1 : (List.range (m.env.numDays - 1)).map
            ((ObjTerm.eval m.env a) ∘ fun d => ObjTerm.dn n d) =
            (List.range (m.env.numDays - 1)).map fun d =>
              if patt2 m.env a.cube n d then (-20 : Int) else 0 := by
          refine List.map_congr_left fun d hd => ?_
          rw [List.mem_range] at hd
          have := ((hbic hact n d hn).1 (by omega))
          simp [Function.comp, ObjTerm.eval, this]
        have e2 : (List.range (m.env.numDays - 2)).map
            ((ObjTerm.eval m.env a) ∘ fun d => ObjTerm.dnd n d) =
            (List.range (m.env.numDays - 2)).map fun d =>
              if patt3 m.env a.cube n d then (-40 : Int) else 0 := by
          refine List.map_congr_left fun d hd => ?_
          rw [List.mem_range] at hd
          have := ((hbic hact n d hn).2 (by omega))
          simp [Function.comp, ObjTerm.eval, this]
        rw [e1, e2, sum_map_ite, sum_map_ite]
      rw [List.map_congr_left hpern, sum_split]
      rw [sum_map_cast_mul, sum_map_cast_mul]
      unfold flowerCount2 flowerCount3
      rw [hact]
      rw [if_pos rfl, if_pos (by simp [hD]; omega)]
  rw [hflower]
  ring

/-- Witness for C2 at a concrete build and assignment. -/
theorem C2_witness :
    objValue (mOf data2).env (mOf data2).objTerms offAsg =
      (-50) * ((natMax (loadsList (mOf data2).env offAsg.cube) : Int) -
        (natMin (loadsList (mOf data2).env offAsg.cube) : Int))
      + (-20) * ((flowerCount2 (mOf data2).env offAsg.cube : Nat) : Int)
      + (-40) * ((flowerCount3 (mOf data2).env offAsg.cube : Nat) : Int)
      + (-1) * totalLoadInt (mOf data2).env offAsg.cube :=
  (C2_objective_exact data2 (mOf data2) offAsg (by decide) (by decide)).1

/-! Claim C5. -/

/-- The day-sum of one nurse counts the true shift variables of that
day. -/
theorem lsum_dayVars (env : Env) (c : Cube) (n d : Nat) :
    lsum c (dayVars env n d) =
      (((List.range (numShifts env)).countP fun s => c n d s : Nat) : Int) := by
  rw [lsum_eq_countP]
  unfold dayVars
  rw [List.countP_map]
  rfl

/-- The per-day at-most-one constraint is part of every built model. -/
theorem amo_mem {env : Env} {n d : Nat} (hn : n < numNurses env)
    (hd : d < env.numDays) :
    LinCon.le (dayVars env n d) 1 ∈ amoCons env := by
  unfold amoCons
  simp only [List.mem_flatMap, List.mem_map, List.mem_range]
  exact ⟨n, hn, d, hd, rfl⟩

/-- Under the at-most-one constraint, a pinned-true variable is the only
true variable of its day, and the decoder returns exactly it. -/
theorem decode_of_pinned {env : Env} {c : Cube} {n d sIdx : Nat}
    (hn : n < numNurses env) (hs : sIdx < numShifts env)
    (htrue : c n d sIdx = true)
    (hamo : lsum c (dayVars env n d) ≤ 1) :
    (List.range (numShifts env)).find? (fun s => c n d s) = some sIdx := by
  have hcnt : ((List.range (numShifts env)).countP fun s => c n d s) ≤ 1 := by
    have heq := lsum_dayVars env c n d
    rw [heq] at hamo
    exact_mod_cast hamo
  have huniq : ∀ s, s < numShifts env → c n d s = true → s = sIdx := by
    intro s hslt hstrue
    by_contra hne
    have h2 : 2 ≤ (List.range (numShifts env)).countP fun s => c n d s :=
      two_le_countP (List.nodup_range _) (List.mem_range.mpr hslt)
        (List.mem_range.mpr hs) hne hstrue htrue
    omega
  have hsome : ((List.range (numShifts env)).find? fun s => c n d s).isSome :=
    List.find?_isSome.mpr ⟨sIdx, List.mem_range.mpr hs, htrue⟩
  obtain ⟨s0, hs0⟩ := Option.isSome_iff_exists.mp hsome
  obtain ⟨hs0lt, hs0p, -⟩ := range_find?_least hs0
  rw [hs0, huniq s0 hs0lt hs0p]

/-- Claim C5 (confirmed): for a pre-assignment whose nurse id resolves in
the roster and whose date parses to a valid in-month day index, the model
pins the exact variable to 1 when the shift code resolves in the working
catalog, and pins the whole day's sum to 0 otherwise; consequently, in
every satisfying assignment, the decoder's cell for that nurse and day is
exactly the pinned working shift (or no record at all for a non-working
pin). -/
theorem C5_preassignment_pinning (data : InputData) (m : Model)
    (p : PreAssignment) (nid ds sc : String) (nIdx day : Nat)
    (hb : buildModel data = .ok (some m))
    (hmem : p ∈ m.env.preAssigned)
    (hnid : p.nurseId = some nid)
    (hds : p.date = some ds)
    (hsc : p.shiftCode = some sc)
    (hn : dictLastIdx Nurse.id m.env.nurses nid = some nIdx)
    (hday : dateDay ds = some ((day : Nat) : Int))
    (hdr : day < m.env.numDays) :
    (∀ sIdx, dictLastIdx ShiftType.code m.env.workingShifts sc = some sIdx →
      LinCon.eq [(nIdx, day, sIdx)] 1 ∈ m.cons ∧
      ∀ a, satisfiesB m a = true →
        ∃ st nr, m.env.workingShifts[sIdx]? = some st ∧ st.code = sc ∧
          m.env.nurses[nIdx]? = some nr ∧
          emission m.env a.cube nIdx day = some
            { date := dateFmt m.env day, nurseId := nr.id,
              shiftTypeId := st.id, shiftCode := st.code }) ∧
    (dictLastIdx ShiftType.code m.env.workingShifts sc = none →
      LinCon.eq (dayVars m.env nIdx day) 0 ∈ m.cons ∧
      ∀ a, satisfiesB m a = true → emission m.env a.cube nIdx day = none) := by
  obtain ⟨hp, pre, hpre, hcons, hobj⟩ := buildModel_inv hb
  have hnlt : nIdx < numNurses m.env := by
    have := dictLastIdx_lt hn
    exact this
  have hmemcons : ∀ lc, lc ∈ preEntryCons m.env nIdx p → lc ∈ m.cons := by
    intro lc hlc
    have hinpre : lc ∈ pre := preConsList_ok hpre p hmem nid nIdx hnid hn lc hlc
    rw [hcons]
    simp only [List.mem_append]
    tauto
  have hrange : ¬ ((((day : Nat) : Int) < 0 || (m.env.numDays : Int) ≤ ((day : Nat) : Int)) = true) := by
    simp only [Bool.or_eq_true, decide_eq_true_eq, not_or]
    constructor
    · omega
    · push_cast
      omega
  constructor
  · intro sIdx hsIdx
    have hentry : preEntryCons m.env nIdx p = [LinCon.eq [(nIdx, day, sIdx)] 1] := by
      simp only [preEntryCons, hds, hday, hsc, hsIdx]
      rw [if_neg hrange]
      rw [Int.toNat_natCast]
    have hconmem : LinCon.eq [(nIdx, day, sIdx)] 1 ∈ m.cons := by
      apply hmemcons
      rw [hentry]
      exact List.mem_singleton.mpr rfl
    refine ⟨hconmem, ?_⟩
    intro a ha
    have hslt : sIdx < numShifts m.env := dictLastIdx_lt hsIdx
    have hpin := satisfies_all ha _ hconmem
    have htrue : a.cube nIdx day sIdx = true := by
      simp only [LinCon.holds] at hpin
      rw [lsum_single] at hpin
      cases hcv : a.cube nIdx day sIdx
      · rw [hcv] at hpin
        simp at hpin
      · rfl
    have hamoc := satisfies_all ha _ (by
      rw [hcons]
      simp only [List.mem_append]
      have := amo_mem hnlt hdr
      tauto)
    have hamo : lsum a.cube (dayVars m.env nIdx day) ≤ 1 := by
      simp only [LinCon.holds] at hamoc
      exact of_decide_eq_true hamoc
    have hfind := decode_of_pinned hnlt hslt htrue hamo
    obtain ⟨st, hst, hstcode⟩ := dictLastIdx_some hsIdx
    obtain ⟨nr, hnr, -⟩ := dictLastIdx_some hn
    refine ⟨st, nr, hst, hstcode, hnr, ?_⟩
    simp only [emission, hfind, hst, hnr]
  · intro hnone
    have hentry : preEntryCons m.env nIdx p = [LinCon.eq (dayVars m.env nIdx day) 0] := by
      simp only [preEntryCons, hds, hday, hsc, hnone]
      rw [if_neg hrange]
      rw [Int.toNat_natCast]
    have hconmem : LinCon.eq (dayVars m.env nIdx day) 0 ∈ m.cons := by
      apply hmemcons
      rw [hentry]
      exact List.mem_singleton.mpr rfl
    refine ⟨hconmem, ?_⟩
    intro a ha
    have hzero := satisfies_all ha _ hconmem
    simp only [LinCon.holds] at hzero
    have hz : lsum a.cube (dayVars m.env nIdx day) = 0 := by
      simpa using hzero
    rw [lsum_dayVars] at hz
    have hcnt : ((List.range (numShifts m.env)).countP fun s => a.cube nIdx day s) = 0 := by
      omega
    have hall : ∀ s ∈ List.range (numShifts m.env), a.cube nIdx day s = false := by
      intro s hsmem
      by_contra hcv
      simp only [Bool.not_eq_false] at hcv
      have : 0 < (List.range (numShifts m.env)).countP fun s => a.cube nIdx day s :=
        List.countP_pos_iff.mpr ⟨s, hsmem, hcv⟩
      omega
    have hfind : (List.range (numShifts m.env)).find? (fun s => a.cube nIdx day s) = none := by
      rw [List.find?_eq_none]
      intro s hsmem
      simp [hall s hsmem]
    simp only [emission, hfind]

/-- Witness for C5 at the concrete pinned input. -/
theorem C5_witness :
    LinCon.eq [(0, 0, 0)] 1 ∈ (mOf data5).cons ∧
    ∃ st nr, (mOf data5).env.workingShifts[0]? = some st ∧ st.code = "D" ∧
      (mOf data5).env.nurses[0]? = some nr ∧
      emission (mOf data5).env pinAsg.cube 0 0 = some
        { date := dateFmt (mOf data5).env 0, nurseId := nr.id,
          shiftTypeId := st.id, shiftCode := st.code } := by
  have h := (C5_preassignment_pinning data5 (mOf data5)
    { nurseId := some "n1", date := some "2023-02-01", shiftCode := some "D" }
    "n1" "2023-02-01" "D" 0 0
    (by decide) (by decide) (by decide) (by decide) (by decide) (by decide)
    (by decide) (by decide)).1 0 (by decide)
  exact ⟨h.1, h.2 pinAsg (by decide)⟩

/-! Claim C9. -/

theorem filterMap_eq_flatMap_toList {α β : Type} (g : α → Option β) (l : List α) :
    l.filterMap g = l.flatMap fun a => (g a).toList := by
  induction l with
  | nil => rfl
  | cons a l ih =>
    cases h : g a <;> simp [List.filterMap_cons, h, ih]

theorem filterMap_product {α β γ : Type} (l1 : List α) (l2 : List β)
    (g : α → β → Option γ) :
    (l1.product l2).filterMap (fun pr => g pr.1 pr.2) =
      l1.flatMap fun a => l2.flatMap fun b => (g a b).toList := by
  induction l1 with
  | nil => rfl
  | cons x xs ih =>
    show ((l2.map (Prod.mk x) ++ xs.product l2).filterMap fun pr => g pr.1 pr.2) = _
    rw [List.filterMap_append, List.filterMap_map, ih, List.flatMap_cons]
    congr 1
    exact filterMap_eq_flatMap_toList (fun b => g x b) l2

/-- Claim C9 (confirmed): the decoder output is the nurse-major, day-minor
pass over all (nurse, day) pairs, emitting at most one record per pair:
a record exactly when some working-shift variable of the pair is true,
built from the least true shift index, with the date assembled from the
year, the zero-padded 2-digit month and the zero-padded 2-digit 1-based
day joined by dashes; pairs with no true variable emit nothing, and extra
true variables beyond the first are ignored. -/
theorem C9_decoder (env : Env) (c : Cube) :
    decode env c = ((List.range (numNurses env)).product
        (List.range env.numDays)).filterMap (fun pr => emission env c pr.1 pr.2) ∧
    ∀ n d, n < numNurses env →
      ((emission env c n d).isNone = true ↔ ∀ s < numShifts env, c n d s = false) ∧
      (∀ rec, emission env c n d = some rec →
        ∃ s st nr, s < numShifts env ∧ c n d s = true ∧
          (∀ j < s, c n d j = false) ∧
          env.workingShifts[s]? = some st ∧ env.nurses[n]? = some nr ∧
          rec = { date := toString env.year ++ "-" ++ pad2 env.month ++ "-" ++
                    pad2 ((d : Int) + 1),
                  nurseId := nr.id, shiftTypeId := st.id, shiftCode := st.code }) := by
  constructor
  · rw [filterMap_product]
    rfl
  · intro n d hn
    constructor
    · constructor
      · intro hnone s hs
        by_contra hcv
        simp only [Bool.not_eq_false] at hcv
        have hsome : ((List.range (numShifts env)).find? fun s => c n d s).isSome :=
          List.find?_isSome.mpr ⟨s, List.mem_range.mpr hs, hcv⟩
        obtain ⟨s0, hs0⟩ := Option.isSome_iff_exists.mp hsome
        obtain ⟨hs0lt, -, -⟩ := range_find?_least hs0
        have hst : env.workingShifts[s0]? = some env.workingShifts[s0] :=
          List.getElem?_eq_getElem hs0lt
        have hnr : env.nurses[n]? = some env.nurses[n] :=
          List.getElem?_eq_getElem hn
        simp only [emission, hs0, hst, hnr, Option.isNone_some] at hnone
        exact absurd hnone (by simp)
      · intro hall
        have hfind : ((List.range (numShifts env)).find? fun s => c n d s) = none := by
          rw [List.find?_eq_none]
          intro s hsmem
          simp [hall s (List.mem_range.mp hsmem)]
        simp [emission, hfind]
    · intro rec hrec
      cases hf : (List.range (numShifts env)).find? fun s => c n d s with
      | none =>
        simp only [emission, hf] at hrec
        cases hrec
      | some s =>
        obtain ⟨hslt, hsp, hmin⟩ := range_find?_least hf
        cases hst : env.workingShifts[s]? with
        | none =>
          simp only [emission, hf, hst] at hrec
          cases hrec
        | some st =>
          cases hnr : env.nurses[n]? with
          | none =>
            simp only [emission, hf, hst, hnr] at hrec
            cases hrec
          | some nr =>
            simp only [emission, hf, hst, hnr, Option.some.injEq] at hrec
            exact ⟨s, st, nr, hslt, hsp, hmin, hst, rfl, hrec.symm⟩

/-- Witness for C9 at a concrete environment and a cube with two true
variables on the same (nurse, day) pair. -/
theorem C9_witness :
    decode (mOf data2).env multiCube =
      ((List.range (numNurses (mOf data2).env)).product
        (List.range (mOf data2).env.numDays)).filterMap
          (fun pr => emission (mOf data2).env multiCube pr.1 pr.2) :=
  (C9_decoder (mOf data2).env multiCube).1

/-! Claim C10. -/

theorem preConsList_eq :
    ∀ (env : Env) (ps : List PreAssignment), SV.preConsList env ps = preConsList env ps := by
  intro env ps
  induction ps with
  | nil => rfl
  | cons p rest ih =>
    simp only [SV.preConsList, preConsList, ih]
    rfl

/-- Inversion of the `buildModel` pipeline of the solver-script
variant. -/
theorem sv_buildModel_inv {data : InputData} {m : Model}
    (h : SV.buildModel data = .ok m) :
    SV.parse data = .ok m.env ∧
    ∃ pre, SV.preConsList m.env m.env.preAssigned = .ok pre ∧
      m.cons = SV.forbiddenCons m.env ++ SV.amoCons m.env ++ pre ++ SV.restCons m.env ++
        SV.demandCons m.env ++ SV.seniorCons m.env ++ SV.workloadCons m.env ++
        SV.consecCons m.env ∧
      m.objTerms = SV.objTerms m.env := by
  unfold SV.buildModel at h
  split at h
  · exact absurd h (by simp)
  · rename_i env hp
    split at h
    · exact absurd h (by simp)
    · rename_i pre hq
      simp only [Except.ok.injEq] at h
      subst h
      exact ⟨hp, pre, hq, rfl, rfl⟩

/-- Failure inversion of the solver-script variant's build pipeline. -/
theorem sv_buildModel_error {data : InputData} {e : PyErr}
    (h : SV.buildModel data = .error e) :
    SV.parse data = .error e ∨
    ∃ env, SV.parse data = .ok env ∧ SV.preConsList env env.preAssigned = .error e := by
  unfold SV.buildModel at h
  split at h
  · rename_i e2 hp
    simp only [Except.error.injEq] at h
    subst h
    exact Or.inl hp
  · rename_i env hp
    split at h
    · rename_i e2 hq
      simp only [Except.error.injEq] at h
      subst h
      exact Or.inr ⟨env, hp, hq⟩
    · exact absurd h (by simp)

/-- Forward construction of the api variant's build result. -/
theorem buildModel_eq_of {data : InputData} {env : Env} {pre : List LinCon}
    (h1 : parseInput data = .ok (.done env))
    (h2 : preConsList env env.preAssigned = .ok pre) :
    buildModel data = .ok (some
      { env := env
        cons := forbiddenCons env ++ amoCons env ++ pre ++ restCons env ++
          demandCons env ++ seniorCons env ++ workloadCons env ++ consecCons env
        objTerms := apiObjTerms env }) := by
  simp only [buildModel, h1, h2]

/-- The model built from `data10` is unsatisfiable: its daily-demand
block requires two nurses on the day shift out of a roster of one. -/
theorem data10_infeasible : ∀ a : Asg, satisfiesB (mOf data10) a = false := by
  intro a
  cases h : satisfiesB (mOf data10) a with
  | false => rfl
  | true =>
    exfalso
    have hmem : LinCon.ge [(0, 0, 0)] 2 ∈ (mOf data10).cons := by decide
    have hc := satisfies_all h _ hmem
    simp only [LinCon.holds] at hc
    have h2 : (2 : Int) ≤ lsum a.cube [(0, 0, 0)] := of_decide_eq_true hc
    rw [lsum_single] at h2
    split at h2 <;> omega

/-- Claim C10 (counterexample): `data10` is an in-domain input (all four
fields present, roster and catalog non-empty) whose built model is
unsatisfiable (`data10_infeasible`), so reporting no assignment is the
only sound backend behaviour there - and then the two variants return
different VALUES in the shared `error` field of the envelope (the api
variant's English infeasibility text against the solver script's Chinese
one), not merely extra fields; the solver script also sets the
`log_search_progress` solver parameter the api variant leaves untouched.
This refutes the clause that the variants differ only in time budget,
worker count and extra envelope fields. -/
theorem C10_counterexample :
    data10.nurses.isSome = true ∧
    data10.shiftTypes.isSome = true ∧
    data10.year.isSome = true ∧
    data10.month.isSome = true ∧
    (data10.nurses.getD []).isEmpty = false ∧
    (data10.shiftTypes.getD []).isEmpty = false ∧
    solve_schedule oracleNone data10 = SolveResult.failure infeasibleMsg ∧
    SV.solve_schedule oracleNone data10 =
      SV.SVResult.failure SV.infeasibleMsg (some SV.infeasibleDetails) ∧
    infeasibleMsg ≠ SV.infeasibleMsg ∧
    SV.logSearchProgress ≠ apiLogSearchProgress := by
  exact ⟨by decide, by decide, by decide, by decide, by decide, by decide,
    by decide, by decide, by decide, by decide⟩

/-- Claim C10 (amended): on inputs where `nurses`, `shiftTypes`, `year`
and `month` are all present with non-empty rosters and catalogs, the two
`solve_schedule` variants agree on the normalized environment, on every
hard-constraint block (block by block, in emission order), emit the same
objective terms up to order (hence equal objective value on every
assignment), and share the decoder; beyond the model they differ in the
solver budgets (10s/4 workers against 60s/8 workers), in the solver
script's explicit `log_search_progress` setting, and in the result
envelopes: the solver script adds a `status` field on success and a
`details` field on infeasibility, and the two variants place different
texts in the shared `error` field on infeasibility, while the exception
path carries the same `str(e)` message in both. -/
theorem C10_amended_equivalence (data : InputData)
    (ns : List Nurse) (sts : List ShiftType) (y mo : Int)
    (hns : data.nurses = some ns) (hne : ns ≠ [])
    (hsts : data.shiftTypes = some sts) (hse : sts ≠ [])
    (hy : data.year = some y) (hmo : data.month = some mo) :
    parseInput data = (SV.parse data).map Parsed.done ∧
    (∀ env, SV.forbiddenCons env = forbiddenCons env) ∧
    (∀ env, SV.amoCons env = amoCons env) ∧
    (∀ env ps, SV.preConsList env ps = preConsList env ps) ∧
    (∀ env, SV.restCons env = restCons env) ∧
    (∀ env, SV.demandCons env = demandCons env) ∧
    (∀ env, SV.seniorCons env = seniorCons env) ∧
    (∀ env, SV.workloadCons env = workloadCons env) ∧
    (∀ env, SV.consecCons env = consecCons env) ∧
    (∀ env, (SV.objTerms env).Perm (apiObjTerms env)) ∧
    (∀ env a, objValue env (SV.objTerms env) a = objValue env (apiObjTerms env) a) ∧
    SV.decode = decode ∧
    apiSolverParams = (10, 4) ∧
    SV.solverParams = (60, 8) ∧
    SV.logSearchProgress = some false ∧
    apiLogSearchProgress = none ∧
    (∀ m, SV.buildModel data = .ok m →
      buildModel data = .ok (some
        { env := m.env, cons := m.cons, objTerms := apiObjTerms m.env }) ∧
      (∀ backend : Backend,
        backend { env := m.env, cons := m.cons, objTerms := apiObjTerms m.env } = none →
        solve_schedule backend data = .failure infeasibleMsg) ∧
      (∀ backend : Backend, backend m = none →
        SV.solve_schedule backend data =
          .failure SV.infeasibleMsg (some SV.infeasibleDetails)) ∧
      (∀ (backend : Backend) a,
        backend { env := m.env, cons := m.cons, objTerms := apiObjTerms m.env } = some a →
        solve_schedule backend data = .success (decode m.env a.cube)) ∧
      (∀ (backend : Backend) a, backend m = some a →
        SV.solve_schedule backend data =
          .success SV.successStatus (decode m.env a.cube))) ∧
    (∀ e, SV.buildModel data = .error e →
      buildModel data = .error e ∧
      (∀ backend : Backend, solve_schedule backend data = .failure e.message) ∧
      (∀ backend : Backend, SV.solve_schedule backend data = .failure e.message none)) ∧
    infeasibleMsg ≠ SV.infeasibleMsg := by
  have hperm : ∀ env, (SV.objTerms env).Perm (apiObjTerms env) := by
    intro env
    unfold SV.objTerms apiObjTerms
    cases hact : flowerActive env with
    | false => simp
    | true =>
      simp only [if_pos rfl]
      refine List.Perm.append_right _ ?_
      by_cases h3 : 3 ≤ env.numDays
      · simp only [if_pos h3]
        exact (flatMap_append_perm (List.range (numNurses env)) _ _).symm
      · simp only [if_neg h3]
        simp
  have hparse : parseInput data = (SV.parse data).map Parsed.done := by
    have hnsE : ns.isEmpty = false := by
      cases ns with
      | nil => exact absurd rfl hne
      | cons a l => rfl
    have hstsE : sts.isEmpty = false := by
      cases sts with
      | nil => exact absurd rfl hse
      | cons a l => rfl
    simp only [parseInput, SV.parse, hns, hsts, hy, hmo, Option.getD_some]
    rw [if_neg (by simp [hnsE, hstsE])]
    cases hr : monthrangeDays y (mo + 1) <;> simp [Except.map]
  refine ⟨hparse, fun env => rfl, fun env => rfl, preConsList_eq, fun env => rfl,
    fun env => rfl, fun env => rfl, fun env => rfl, fun env => rfl, hperm,
    fun env a => ((hperm env).map (ObjTerm.eval env a)).sum_eq, rfl, rfl, rfl, rfl, rfl,
    ?_, ?_, by decide⟩
  · intro m hm
    obtain ⟨hpSV, pre, hpreSV, hconsSV, hobjSV⟩ := sv_buildModel_inv hm
    have hparseApi : parseInput data = .ok (.done m.env) := by
      rw [hparse, hpSV]
      rfl
    have hpreApi : preConsList m.env m.env.preAssigned = .ok pre := by
      rw [← preConsList_eq]
      exact hpreSV
    have hconsEq : m.cons = forbiddenCons m.env ++ amoCons m.env ++ pre ++ restCons m.env ++
        demandCons m.env ++ seniorCons m.env ++ workloadCons m.env ++ consecCons m.env :=
      hconsSV
    have hbuildApi := buildModel_eq_of hparseApi hpreApi
    rw [← hconsEq] at hbuildApi
    refine ⟨hbuildApi, ?_, ?_, ?_, ?_⟩
    · intro backend hback
      simp only [solve_schedule, solveCaught, solveBody, hbuildApi, hback]
    · intro backend hback
      simp only [SV.solve_schedule, SV.solveCaught, SV.solveBody, hm, hback]
    · intro backend a hback
      simp only [solve_schedule, solveCaught, solveBody, hbuildApi, hback]
    · intro backend a hback
      simp only [SV.solve_schedule, SV.solveCaught, SV.solveBody, hm, hback]
      rfl
  · intro e he
    rcases sv_buildModel_error he with hperr | ⟨env, hpok, hqerr⟩
    · have hparseApiErr : parseInput data = .error e := by
        rw [hparse, hperr]
        rfl
      have hbuildErr : buildModel data = .error e := by
        simp only [buildModel, hparseApiErr]
      refine ⟨hbuildErr, ?_, ?_⟩
      · intro backend
        simp only [solve_schedule, solveCaught, solveBody, hbuildErr]
      · intro backend
        simp only [SV.solve_schedule, SV.solveCaught, SV.solveBody, he]
    · have hparseApiOk : parseInput data = .ok (.done env) := by
        rw [hparse, hpok]
        rfl
      have hq2 : preConsList env env.preAssigned = .error e := by
        rw [← preConsList_eq]
        exact hqerr
      have hbuildErr : buildModel data = .error e := by
        simp only [buildModel, hparseApiOk, hq2]
      refine ⟨hbuildErr, ?_, ?_⟩
      · intro backend
        simp only [solve_schedule, solveCaught, solveBody, hbuildErr]
      · intro backend
        simp only [SV.solve_schedule, SV.solveCaught, SV.solveBody, he]

/-- Witness for the amended C10: the envelope pair of the two variants at
the concrete infeasible input, with every hypothesis discharged. -/
theorem C10_amended_witness :
    SV.solve_schedule oracleNone data10 =
      SV.SVResult.failure SV.infeasibleMsg (some SV.infeasibleDetails) ∧
    solve_schedule oracleNone data10 = SolveResult.failure infeasibleMsg := by
  obtain ⟨-, -, -, -, -, -, -, -, -, -, -, -, -, -, -, -, hbuild, -, -⟩ :=
    C10_amended_equivalence data10 [{ id := "n1", level := some "N2" }]
      [{ id := "s1", code := "D" }] 2023 1 (by decide) (by decide) (by decide)
      (by decide) (by decide) (by decide)
  have h := hbuild (svmOf data10) (by decide)
  exact ⟨h.2.2.1 oracleNone rfl, h.2.1 oracleNone rfl⟩

end NurseSched
